import Mathlib

/-!
Verification of the Pyscription repository against its natural-language
specification.

The development shallowly embeds the parts of the program that the claims
C1-C10 are about:

* the MD5 digest (Python `hashlib.md5(...).hexdigest()`), used by the
  pattern-discovery engine and the document processor to derive identities;
* the security analyzer (`pyscription/core/security_analyzer.py`):
  the AST-based checks, the regex-based line checks, the final sort of
  `analyze_code_security`, and `generate_security_report`;
* the pattern-discovery engine (`pyscription/core/pattern_discovery.py`):
  the discovered-pattern store update of `discover_patterns` and the
  AST-subsequence mining of `_discover_ast_patterns` /
  `_find_common_subsequences`;
* the document processor (`pyscription/core/document_processor.py`):
  the control flow of `ingest_documentation` and the identity derivation of
  `_process_doc_file`;
* the autonomous agent (`pyscription/core/autonomous_agent.py`):
  the task-readiness filter and selection of `execute_next_task`;
* the project analyzer (`pyscription/core/project_analyzer.py`):
  `_extract_functions` and `_detect_async_usage`;
* the health score of `_comprehensive_checkup` (`pyscription/__main__.py`).

Python source text is embedded at the parse boundary: functions that call
`ast.parse` are modelled as functions of the parsed tree (`Py` below)
together with the raw line list, and file I/O is modelled by passing file
contents explicitly.  Machine integers do not occur (Python integers are
unbounded); the 32-bit words inside MD5 are `Nat` reduced `% 2^32`.
-/

namespace Pyscription

set_option maxRecDepth 16000

/-! ## MD5 (Python `hashlib.md5(data).hexdigest()`)

A faithful implementation of the MD5 digest over a byte list, used by
`pattern_discovery.py` (`hashlib.md5(pattern['pattern'].encode()).hexdigest()[:10]`)
and `document_processor.py` (`hashlib.md5(str(file_path).encode()).hexdigest()[:10]`).
Python's `str.encode()` defaults to UTF-8, embedded below. -/

/-- Truncate to a 32-bit word. -/
def w32 (n : Nat) : Nat := n % 4294967296

/-- 32-bit left rotation. -/
def rotl32 (x s : Nat) : Nat := w32 ((x <<< s) + (x >>> (32 - s)))

/-- 32-bit bitwise complement. -/
def not32 (x : Nat) : Nat := x ^^^ 4294967295

/-- The 64 MD5 sine-derived round constants. -/
def md5K : List Nat :=
  [3614090360, 3905402710, 606105819, 3250441966, 4118548399, 1200080426,
   2821735955, 4249261313, 1770035416, 2336552879, 4294925233, 2304563134,
   1804603682, 4254626195, 2792965006, 1236535329, 4129170786, 3225465664,
   643717713, 3921069994, 3593408605, 38016083, 3634488961, 3889429448,
   568446438, 3275163606, 4107603335, 1163531501, 2850285829, 4243563512,
   1735328473, 2368359562, 4294588738, 2272392833, 1839030562, 4259657740,
   2763975236, 1272893353, 4139469664, 3200236656, 681279174, 3936430074,
   3572445317, 76029189, 3654602809, 3873151461, 530742520, 3299628645,
   4096336452, 1126891415, 2878612391, 4237533241, 1700485571, 2399980690,
   4293915773, 2240044497, 1873313359, 4264355552, 2734768916, 1309151649,
   4149444226, 3174756917, 718787259, 3951481745]

/-- The 64 MD5 per-round left-rotation amounts. -/
def md5S : List Nat :=
  [7, 12, 17, 22, 7, 12, 17, 22, 7, 12, 17, 22, 7, 12, 17, 22,
   5, 9, 14, 20, 5, 9, 14, 20, 5, 9, 14, 20, 5, 9, 14, 20,
   4, 11, 16, 23, 4, 11, 16, 23, 4, 11, 16, 23, 4, 11, 16, 23,
   6, 10, 15, 21, 6, 10, 15, 21, 6, 10, 15, 21, 6, 10, 15, 21]

/-- UTF-8 encoding of one code point (Python `str.encode()`). -/
def charUtf8 (c : Char) : List Nat :=
  let n := c.toNat
  if n < 128 then [n]
  else if n < 2048 then [192 + n >>> 6, 128 + (n &&& 63)]
  else if n < 65536 then
    [224 + n >>> 12, 128 + ((n >>> 6) &&& 63), 128 + (n &&& 63)]
  else
    [240 + n >>> 18, 128 + ((n >>> 12) &&& 63),
     128 + ((n >>> 6) &&& 63), 128 + (n &&& 63)]

/-- UTF-8 byte list of a string. -/
def utf8Bytes (s : String) : List Nat := s.toList.flatMap charUtf8

/-- MD5 padding: append `0x80`, zero-fill to 56 mod 64, then the original
bit length as a 64-bit little-endian quantity. -/
def md5Pad (msg : List Nat) : List Nat :=
  let bitLen := (8 * msg.length) % 18446744073709551616
  let afterOne := msg ++ [128]
  let zeros := (64 + 56 - afterOne.length % 64) % 64
  afterOne ++ List.replicate zeros 0 ++
    ((List.range 8).map fun i => (bitLen >>> (8 * i)) % 256)

/-- Split a list into chunks of `n` elements, fuel-recursive so that the
kernel can evaluate it (fuel `l.length + 1` suffices for every `n > 0`,
since each step drops `n ≥ 1` elements). -/
def chunksOfAux (fuel n : Nat) (l : List α) : List (List α) :=
  match fuel with
  | 0 => []
  | fuel + 1 =>
    if l.isEmpty || n == 0 then []
    else l.take n :: chunksOfAux fuel n (l.drop n)

/-- Split a list into chunks of `n` elements (the padded message length is a
multiple of 64, so the final ragged chunk never occurs). -/
def chunksOf (n : Nat) (l : List α) : List (List α) :=
  chunksOfAux (l.length + 1) n l

/-- Decode the `g`-th little-endian 32-bit word of a 64-byte chunk. -/
def md5Word (chunk : List Nat) (g : Nat) : Nat :=
  (chunk.getD (4 * g) 0) + (chunk.getD (4 * g + 1) 0) * 256 +
    (chunk.getD (4 * g + 2) 0) * 65536 + (chunk.getD (4 * g + 3) 0) * 16777216

/-- One MD5 round; `i` is the round index, `(a, b, c, d)` the working state. -/
def md5Round (chunk : List Nat) (st : Nat × Nat × Nat × Nat) (i : Nat) :
    Nat × Nat × Nat × Nat :=
  let (a, b, c, d) := st
  let (f, g) :=
    if i < 16 then ((b &&& c) ||| (not32 b &&& d), i)
    else if i < 32 then ((d &&& b) ||| (not32 d &&& c), (5 * i + 1) % 16)
    else if i < 48 then (b ^^^ c ^^^ d, (3 * i + 5) % 16)
    else (c ^^^ (b ||| not32 d), (7 * i) % 16)
  let f := w32 (f + a + md5K.getD i 0 + md5Word chunk g)
  (d, w32 (b + rotl32 f (md5S.getD i 0)), b, c)

/-- Process one 64-byte chunk into the running digest state. -/
def md5Chunk (st : Nat × Nat × Nat × Nat) (chunk : List Nat) :
    Nat × Nat × Nat × Nat :=
  let (a0, b0, c0, d0) := st
  let (a, b, c, d) := (List.range 64).foldl (md5Round chunk) (a0, b0, c0, d0)
  (w32 (a0 + a), w32 (b0 + b), w32 (c0 + c), w32 (d0 + d))

/-- Lowercase hex digit characters. -/
def hexDigit (n : Nat) : Char := "0123456789abcdef".toList.getD n '0'

/-- Two-digit lowercase hex of a byte. -/
def byteHex (b : Nat) : List Char := [hexDigit (b / 16), hexDigit (b % 16)]

/-- Hex rendering of a 32-bit word as four little-endian bytes. -/
def wordHexLE (w : Nat) : List Char :=
  byteHex (w % 256) ++ byteHex ((w >>> 8) % 256) ++
    byteHex ((w >>> 16) % 256) ++ byteHex ((w >>> 24) % 256)

/-- MD5 digest of a byte list, rendered as 32 lowercase hex characters. -/
def md5Bytes (msg : List Nat) : String :=
  let (a, b, c, d) := (chunksOf 64 (md5Pad msg)).foldl md5Chunk
    (1732584193, 4023233417, 2562383102, 271733878)
  String.mk (wordHexLE a ++ wordHexLE b ++ wordHexLE c ++ wordHexLE d)

/-- Python `hashlib.md5(s.encode()).hexdigest()`. -/
def md5Hex (s : String) : String := md5Bytes (utf8Bytes s)

/-! ## String utilities

The identifiers and keyword literals the analyzers compare are ASCII, so
Python's `str.lower()` is embedded as ASCII case folding, and `str.strip()`
strips the six ASCII whitespace characters Python strips. -/

/-- ASCII lowercase of one character (Python `str.lower()` on ASCII text). -/
def asciiLowerChar (c : Char) : Char :=
  if 65 ≤ c.toNat && c.toNat ≤ 90 then Char.ofNat (c.toNat + 32) else c

/-- ASCII lowercase of a string. -/
def asciiLower (s : String) : String := String.mk (s.toList.map asciiLowerChar)

/-- Python's whitespace set for `str.strip()` and `\s`:
space, tab, newline, carriage return, vertical tab, form feed. -/
def isPyWs (c : Char) : Bool :=
  c == ' ' || c == Char.ofNat 9 || c == Char.ofNat 10 || c == Char.ofNat 13 ||
    c == Char.ofNat 11 || c == Char.ofNat 12

/-- Python `str.strip()`. -/
def pyStrip (s : String) : String :=
  String.mk (((s.toList.dropWhile isPyWs).reverse.dropWhile isPyWs).reverse)

/-- `needle in haystack` on character lists (Python substring containment). -/
def subTokB (needle hay : List Char) : Bool :=
  match hay with
  | [] => needle.isEmpty
  | _ :: t => needle.isPrefixOf hay || subTokB needle t

/-- Python `kw in s` substring containment. -/
def strContains (kw s : String) : Bool := subTokB kw.toList s.toList

/-- Python `s[:n]`: the first `n` characters.  (`String.take` itself is
avoided: its position-based implementation does not reduce on symbolic
strings.) -/
def strTake (s : String) (n : Nat) : String := String.mk (s.toList.take n)

/-! ## Python tuple ordering and stable sorting

Both `analyze_code_security` and `execute_next_task` sort by a
`(string, number)` key using Python's default tuple comparison: strings
compare lexicographically by code point, with a proper prefix smaller.
Python's `sorted`/`list.sort` is a stable sort; it is embedded as a stable
insertion sort (any two stable sorts of a list under the same total
preorder coincide). -/

/-- Python string `<`: lexicographic comparison by code point on the
character lists. -/
def listLtB : List Char → List Char → Bool
  | [], [] => false
  | [], _ :: _ => true
  | _ :: _, [] => false
  | a :: as, b :: bs =>
    if a.toNat < b.toNat then true
    else if b.toNat < a.toNat then false
    else listLtB as bs

/-- Python `<` on a `(string, number)` pair (tuple comparison). -/
def pyLtB (k1 k2 : List Char × Nat) : Bool :=
  listLtB k1.1 k2.1 || (k1.1 == k2.1 && decide (k1.2 < k2.2))

/-- Stable insertion: place `x` before the first element `y` with
`le x y`; later elements with an equal key therefore stay after `x`. -/
def insertLe (le : α → α → Bool) (x : α) : List α → List α
  | [] => [x]
  | y :: ys => if le x y then x :: y :: ys else y :: insertLe le x ys

/-- Stable insertion sort, embedding Python's stable `sorted`. -/
def isort (le : α → α → Bool) : List α → List α
  | [] => []
  | x :: xs => insertLe le x (isort le xs)

/-- Sortedness of a list under a boolean "less or equal". -/
def SortedB (le : α → α → Bool) (l : List α) : Prop :=
  l.Pairwise fun a b => le a b = true

/-- The "less or equal" induced by a strict `(string, number)` sort key. -/
def leByKey (key : α → List Char × Nat) (a b : α) : Bool :=
  !(pyLtB (key b) (key a))

/-! ## A small regex engine

`_analyze_regex_patterns` applies 15 fixed regular expressions line by line
with `re.search(..., re.IGNORECASE)`.  Those patterns only use literals,
escaped literals, `\s*`, `.*`, the class `["\']` and the negated class
`[^"\']+`, so a matcher for exactly those constructs is embedded.  Since
every pattern literal is ASCII, `re.IGNORECASE` is embedded by matching the
case-folded line against lowercase pattern literals (the classes and `\s`
are case-stable). -/

/-- A single-character regex atom. -/
inductive RAtom where
  | lit (c : Char)
  | anyChar
  | cls (cs : List Char)
  | ncls (cs : List Char)
  | ws
deriving DecidableEq

/-- An atom with a repetition marker (`a`, `a*` or `a+`). -/
inductive RTok where
  | once (a : RAtom)
  | star (a : RAtom)
  | plus (a : RAtom)
deriving DecidableEq

/-- Does an atom match one character?  `.` matches anything here because the
analyzed lines come from `code.split('\n')` and so contain no newline. -/
def amatch : RAtom → Char → Bool
  | .lit c, d => c == d
  | .anyChar, _ => true
  | .cls cs, d => cs.contains d
  | .ncls cs, d => !(cs.contains d)
  | .ws, d => isPyWs d

/-- Existential regex matching at the start of `s`, fuel-recursive.  Every
recursive call strictly decreases `(s.length, ps.length)` lexicographically,
so fuel `(s.length + 1) * (ps.length + 1)` always suffices. -/
def matchFuel : Nat → List RTok → List Char → Bool
  | 0, _, _ => false
  | _ + 1, [], _ => true
  | _ + 1, .once _ :: _, [] => false
  | fuel + 1, .once a :: ps, c :: cs => amatch a c && matchFuel fuel ps cs
  | fuel + 1, .star a :: ps, s =>
    matchFuel fuel ps s ||
      (match s with
       | [] => false
       | c :: cs => amatch a c && matchFuel fuel (.star a :: ps) cs)
  | fuel + 1, .plus a :: ps, s =>
    match s with
    | [] => false
    | c :: cs => amatch a c && matchFuel fuel (.star a :: ps) cs

/-- Does the pattern match a prefix of `s`? -/
def matchHere (ps : List RTok) (s : List Char) : Bool :=
  matchFuel ((s.length + 1) * (ps.length + 1)) ps s

/-- `re.search`: does the pattern match starting at any position? -/
def rsearchAux : Nat → List RTok → List Char → Bool
  | 0, _, _ => false
  | fuel + 1, ps, s =>
    matchHere ps s ||
      (match s with
       | [] => false
       | _ :: cs => rsearchAux fuel ps cs)

/-- `re.search(pattern, line, re.IGNORECASE)` with lowercase pattern
literals: search the case-folded line. -/
def searchCI (ps : List RTok) (line : String) : Bool :=
  let s := line.toList.map asciiLowerChar
  rsearchAux (s.length + 1) ps s

/-- A sequence of literal characters. -/
def lits (s : String) : List RTok := s.toList.map fun c => .once (.lit c)

/-- The quote class `["\']`. -/
def qcls : RAtom := .cls ['"', Char.ofNat 39]

/-- The negated quote class `[^"\']`. -/
def nqcls : RAtom := .ncls ['"', Char.ofNat 39]

/-- `<kw>\s*=\s*["\'][^"\']+["\']` — the shape shared by the five
hardcoded-credential patterns. -/
def secretAssignPat (kw : String) : List RTok :=
  lits kw ++ [.star .ws, .once (.lit '='), .star .ws,
    .once qcls, .plus nqcls, .once qcls]

/-! ## The Python AST embedding

Functions in the repository that call `ast.parse` are embedded as functions
of the parsed tree.  `Py` covers every node kind inspected by the security
analyzer and the project analyzer.  Lists of child nodes use the mutual
`PyList` so that all recursions stay structural (kernel-reducible); `ast`
field order is preserved in `pyChildren`.  Omissions that no embedded
function observes: `ast.alias` / `ast.arguments` / operator nodes are not
emitted as walked nodes (no analyzer matches their kinds), and constants
other than strings are collapsed into `constantOther`. -/

/-- The binary operator of an `ast.BinOp` (only `Add` and `Mod` are ever
distinguished by the analyzers). -/
inductive PyOp where
  | addOp
  | modOp
  | otherOp
deriving DecidableEq

mutual
/-- A Python AST node, with its 1-based `lineno` where the source reads it. -/
inductive Py where
  | module (body : PyList)
  | importStmt (lineno : Nat) (names : List (String × Option String))
  | importFrom (lineno : Nat) (mod : Option String) (names : List (String × Option String))
  | functionDef (lineno : Nat) (nm : String) (argCount : Nat) (body : PyList) (decorators : PyList)
  | asyncFunctionDef (lineno : Nat) (nm : String) (argCount : Nat) (body : PyList) (decorators : PyList)
  | classDef (lineno : Nat) (nm : String) (bases : PyList) (body : PyList)
  | assign (lineno : Nat) (targets : PyList) (value : Py)
  | exprStmt (lineno : Nat) (value : Py)
  | ifStmt (lineno : Nat) (test : Py) (body : PyList) (orelse : PyList)
  | forStmt (lineno : Nat) (target : Py) (iter : Py) (body : PyList)
  | whileStmt (lineno : Nat) (test : Py) (body : PyList)
  | callExpr (lineno : Nat) (func : Py) (args : PyList)
  | nameExpr (lineno : Nat) (id : String)
  | attributeExpr (lineno : Nat) (value : Py) (attr : String)
  | constantStr (lineno : Nat) (s : String)
  | constantOther (lineno : Nat)
  | binOp (lineno : Nat) (left : Py) (op : PyOp) (right : Py)
  | awaitExpr (lineno : Nat) (value : Py)
deriving DecidableEq

/-- A list of AST nodes (mutual with `Py` to keep recursion structural). -/
inductive PyList where
  | nil
  | cons (head : Py) (tail : PyList)
deriving DecidableEq
end

/-- Convert a `PyList` to an ordinary list. -/
def PyList.toList : PyList → List Py
  | .nil => []
  | .cons h t => h :: PyList.toList t

/-- Build a `PyList` from an ordinary list (used to write concrete trees). -/
def pl : List Py → PyList
  | [] => .nil
  | x :: xs => .cons x (pl xs)

mutual
/-- Node count bound used as traversal fuel. -/
def pySize : Py → Nat
  | .module body => 1 + pyListSize body
  | .importStmt _ _ => 1
  | .importFrom _ _ _ => 1
  | .functionDef _ _ _ body decs => 1 + pyListSize body + pyListSize decs
  | .asyncFunctionDef _ _ _ body decs => 1 + pyListSize body + pyListSize decs
  | .classDef _ _ bases body => 1 + pyListSize bases + pyListSize body
  | .assign _ targets value => 1 + pyListSize targets + pySize value
  | .exprStmt _ value => 1 + pySize value
  | .ifStmt _ test body orelse => 1 + pySize test + pyListSize body + pyListSize orelse
  | .forStmt _ target iter body => 1 + pySize target + pySize iter + pyListSize body
  | .whileStmt _ test body => 1 + pySize test + pyListSize body
  | .callExpr _ func args => 1 + pySize func + pyListSize args
  | .nameExpr _ _ => 1
  | .attributeExpr _ value _ => 1 + pySize value
  | .constantStr _ _ => 1
  | .constantOther _ => 1
  | .binOp _ left _ right => 1 + pySize left + pySize right
  | .awaitExpr _ value => 1 + pySize value

/-- Total node count of a node list. -/
def pyListSize : PyList → Nat
  | .nil => 0
  | .cons h t => pySize h + pyListSize t
end

/-- The child nodes of a node, in `ast.iter_child_nodes` field order. -/
def pyChildren : Py → List Py
  | .module body => body.toList
  | .importStmt _ _ => []
  | .importFrom _ _ _ => []
  | .functionDef _ _ _ body decs => body.toList ++ decs.toList
  | .asyncFunctionDef _ _ _ body decs => body.toList ++ decs.toList
  | .classDef _ _ bases body => bases.toList ++ body.toList
  | .assign _ targets value => targets.toList ++ [value]
  | .exprStmt _ value => [value]
  | .ifStmt _ test body orelse => test :: (body.toList ++ orelse.toList)
  | .forStmt _ target iter body => target :: iter :: body.toList
  | .whileStmt _ test body => test :: body.toList
  | .callExpr _ func args => func :: args.toList
  | .nameExpr _ _ => []
  | .attributeExpr _ value _ => [value]
  | .constantStr _ _ => []
  | .constantOther _ => []
  | .binOp _ left _ right => [left, right]
  | .awaitExpr _ value => [value]

/-- Breadth-first traversal queue step, fuel-recursive.  Each step pops one
node, so fuel `pySize t` (≥ the node count) always suffices from `[t]`. -/
def walkAux : Nat → List Py → List Py
  | 0, _ => []
  | _, [] => []
  | fuel + 1, x :: rest => x :: walkAux fuel (rest ++ pyChildren x)

/-- `ast.walk`: breadth-first enumeration of all nodes of a tree. -/
def pyWalk (t : Py) : List Py := walkAux (pySize t) [t]

/-! ## Security analyzer (`security_analyzer.py`, `SecurityPatternAnalyzer`)

`analyze_code_security(code, filename)` is embedded as a function of the
parse result (`none` models a `SyntaxError`, under which only the
regex-based checks run) and of `code.split('\n')`. -/

/-- `VulnerabilityLevel` with its literal string `value`. -/
inductive VulnerabilityLevel where
  | low
  | medium
  | high
  | critical
deriving DecidableEq

/-- The enum's literal string label. -/
def VulnerabilityLevel.value : VulnerabilityLevel → String
  | .low => "low"
  | .medium => "medium"
  | .high => "high"
  | .critical => "critical"

/-- The `SecurityIssue` dataclass. -/
structure SecurityIssue where
  issue_type : String
  severity : VulnerabilityLevel
  description : String
  line_number : Nat
  code_snippet : String
  recommendation : String
  cwe_id : String := ""
  owasp_category : String := ""
deriving DecidableEq

/-- `lines[node.lineno - 1] if node.lineno <= len(lines) else ""`. -/
def snippetAt (lines : List String) (lineno : Nat) : String :=
  if lineno ≤ lines.length then lines.getD (lineno - 1) "" else ""

/-- The `_init_dangerous_imports` table:
`(severity, description, recommendation, cwe_id)` per dangerous name. -/
def dangerousImportInfo (nm : String) :
    Option (VulnerabilityLevel × String × String × String) :=
  if nm == "pickle" then
    some (.high, "Pickle module can execute arbitrary code during deserialization",
      "Use json or other safe serialization formats", "CWE-502")
  else if nm == "eval" then
    some (.critical, "eval() can execute arbitrary code",
      "Avoid eval() or use ast.literal_eval() for safe evaluation", "CWE-95")
  else if nm == "exec" then
    some (.critical, "exec() can execute arbitrary code",
      "Avoid exec() or carefully validate input", "CWE-95")
  else none

/-- `_analyze_dangerous_imports`: dangerous `import` names and calls to
`eval`/`exec`. -/
def analyzeDangerousImports (tree : Py) (lines : List String) : List SecurityIssue :=
  (pyWalk tree).flatMap fun node =>
    match node with
    | .importStmt ln names =>
      names.flatMap fun (nm, _) =>
        match dangerousImportInfo nm with
        | some (sev, desc, rec, cwe) =>
          [{ issue_type := "dangerous_import", severity := sev,
             description := "Dangerous import: " ++ nm ++ " - " ++ desc,
             line_number := ln, code_snippet := snippetAt lines ln,
             recommendation := rec, cwe_id := cwe }]
        | none => []
    | .callExpr ln (.nameExpr _ fid) _ =>
      if fid == "eval" || fid == "exec" then
        match dangerousImportInfo fid with
        | some (sev, desc, rec, cwe) =>
          [{ issue_type := "dangerous_function", severity := sev,
             description := "Dangerous function: " ++ fid ++ " - " ++ desc,
             line_number := ln, code_snippet := snippetAt lines ln,
             recommendation := rec, cwe_id := cwe }]
        | none => []
      else []
    | _ => []

/-- The keyword set of `_analyze_hardcoded_secrets`. -/
def secretKeywords : List String :=
  ["password", "pwd", "secret", "api_key", "token", "key", "auth"]

/-- `_analyze_hardcoded_secrets`: assignments of a string literal longer
than 3 characters to a name whose lowercase form contains a keyword. -/
def analyzeHardcodedSecrets (tree : Py) (lines : List String) : List SecurityIssue :=
  (pyWalk tree).flatMap fun node =>
    match node with
    | .assign ln targets value =>
      targets.toList.flatMap fun tgt =>
        match tgt with
        | .nameExpr _ vid =>
          if secretKeywords.any fun kw => strContains kw (asciiLower vid) then
            match value with
            | .constantStr _ s =>
              if s.length > 3 then
                [{ issue_type := "hardcoded_secret", severity := .high,
                   description := "Hardcoded credential in variable '" ++ vid ++ "'",
                   line_number := ln, code_snippet := snippetAt lines ln,
                   recommendation := "Use environment variables or secure credential management",
                   cwe_id := "CWE-798",
                   owasp_category := "A02:2021 – Cryptographic Failures" }]
              else []
            | _ => []
          else []
        | _ => []
    | _ => []

/-- `_analyze_sql_injection`: `.execute(...)` calls with a `%`-formatting
argument. -/
def analyzeSqlInjection (tree : Py) (lines : List String) : List SecurityIssue :=
  (pyWalk tree).flatMap fun node =>
    match node with
    | .callExpr ln (.attributeExpr _ _ attr) args =>
      if attr == "execute" then
        args.toList.flatMap fun arg =>
          match arg with
          | .binOp _ _ .modOp _ =>
            [{ issue_type := "sql_injection", severity := .critical,
               description := "SQL query using string formatting - potential injection vulnerability",
               line_number := ln, code_snippet := snippetAt lines ln,
               recommendation := "Use parameterized queries with ? placeholders",
               cwe_id := "CWE-89", owasp_category := "A03:2021 – Injection" }]
          | _ => []
      else []
    | _ => []

/-- The function name of a call (`Name.id` or `Attribute.attr`), as
`_analyze_command_injection` extracts it. -/
def callFuncName : Py → Option String
  | .nameExpr _ i => some i
  | .attributeExpr _ _ a => some a
  | _ => none

/-- `_analyze_command_injection`: `system`/`popen`/`call`/`run`/`Popen`
calls with a `+`-concatenation argument. -/
def analyzeCommandInjection (tree : Py) (lines : List String) : List SecurityIssue :=
  (pyWalk tree).flatMap fun node =>
    match node with
    | .callExpr ln func args =>
      match callFuncName func with
      | some fn =>
        if ["system", "popen", "call", "run", "Popen"].contains fn then
          args.toList.flatMap fun arg =>
            match arg with
            | .binOp _ _ .addOp _ =>
              [{ issue_type := "command_injection", severity := .critical,
                 description := "Command execution with string concatenation in " ++ fn ++ "()",
                 line_number := ln, code_snippet := snippetAt lines ln,
                 recommendation := "Use subprocess with list arguments and validate input",
                 cwe_id := "CWE-78", owasp_category := "A03:2021 – Injection" }]
            | _ => []
        else []
      | none => []
    | _ => []

/-- `_analyze_path_traversal`: `open`/`read`/`write`/`remove`/`unlink`
calls (plain names only) with any `BinOp` argument. -/
def analyzePathTraversal (tree : Py) (lines : List String) : List SecurityIssue :=
  (pyWalk tree).flatMap fun node =>
    match node with
    | .callExpr ln (.nameExpr _ fid) args =>
      if ["open", "read", "write", "remove", "unlink"].contains fid then
        args.toList.flatMap fun arg =>
          match arg with
          | .binOp _ _ _ _ =>
            [{ issue_type := "path_traversal", severity := .medium,
               description := "File operation with dynamic path in " ++ fid ++ "()",
               line_number := ln, code_snippet := snippetAt lines ln,
               recommendation := "Validate and sanitize file paths, use os.path.basename()",
               cwe_id := "CWE-22", owasp_category := "A01:2021 – Broken Access Control" }]
          | _ => []
      else []
    | _ => []

/-- `_analyze_deserialization`: `pickle.loads`/`pickle.load` calls. -/
def analyzeDeserialization (tree : Py) (lines : List String) : List SecurityIssue :=
  (pyWalk tree).flatMap fun node =>
    match node with
    | .callExpr ln (.attributeExpr _ (.nameExpr _ base) attr) _ =>
      if (attr == "loads" || attr == "load") && base == "pickle" then
        [{ issue_type := "unsafe_deserialization", severity := .critical,
           description := "Unsafe pickle deserialization - can execute arbitrary code",
           line_number := ln, code_snippet := snippetAt lines ln,
           recommendation := "Use json or other safe serialization formats",
           cwe_id := "CWE-502",
           owasp_category := "A08:2021 – Software and Data Integrity Failures" }]
      else []
    | _ => []

/-- `_analyze_random_usage`: any call of an attribute of the name
`random`. -/
def analyzeRandomUsage (tree : Py) (lines : List String) : List SecurityIssue :=
  (pyWalk tree).flatMap fun node =>
    match node with
    | .callExpr ln (.attributeExpr _ (.nameExpr _ base) _) _ =>
      if base == "random" then
        [{ issue_type := "weak_random", severity := .medium,
           description := "Using random module for potentially security-sensitive operations",
           line_number := ln, code_snippet := snippetAt lines ln,
           recommendation := "Use secrets module for cryptographically secure random numbers",
           cwe_id := "CWE-338",
           owasp_category := "A02:2021 – Cryptographic Failures" }]
      else []
    | _ => []

/-- `_analyze_ssl_issues`: calls to `create_unverified_context`. -/
def analyzeSslIssues (tree : Py) (lines : List String) : List SecurityIssue :=
  (pyWalk tree).flatMap fun node =>
    match node with
    | .callExpr ln (.attributeExpr _ _ attr) _ =>
      if attr == "create_default_context" || attr == "create_unverified_context" then
        if attr == "create_unverified_context" then
          [{ issue_type := "ssl_verification_disabled", severity := .high,
             description := "SSL certificate verification disabled",
             line_number := ln, code_snippet := snippetAt lines ln,
             recommendation := "Use create_default_context() and enable certificate verification",
             cwe_id := "CWE-295",
             owasp_category := "A02:2021 – Cryptographic Failures" }]
        else []
      else []
    | _ => []

/-- One entry of the `_init_vulnerability_patterns` table. -/
structure VulnPattern where
  name : String
  patterns : List (List RTok)
  severity : VulnerabilityLevel
  description : String
  recommendation : String
  cwe_id : String
  owasp_category : String

/-- The `_init_vulnerability_patterns` table, with each regex transcribed
into the mini-engine (lowercased literals; see `searchCI`). -/
def vulnerabilityPatterns : List VulnPattern :=
  [{ name := "hardcoded_password",
     patterns := [secretAssignPat "password", secretAssignPat "pwd",
       secretAssignPat "secret", secretAssignPat "api_key",
       secretAssignPat "token"],
     severity := .high,
     description := "Hardcoded credentials detected",
     recommendation := "Use environment variables or secure credential management",
     cwe_id := "CWE-798",
     owasp_category := "A02:2021 – Cryptographic Failures" },
   { name := "sql_injection",
     patterns :=
       [lits "execute(" ++ [.once qcls, .star .anyChar, .once (.lit '%'),
          .once (.lit 's'), .star .anyChar, .once qcls],
        lits "cursor.execute(" ++ [.once qcls, .star .anyChar,
          .once (.lit '+'), .star .anyChar, .once qcls],
        lits "query" ++ [.star .ws, .once (.lit '='), .star .anyChar,
          .once qcls, .star .anyChar, .once (.lit '%'), .star .anyChar,
          .once qcls],
        lits "select" ++ [.star .anyChar, .once (.lit '+'), .star .anyChar] ++
          lits "from",
        lits "update" ++ [.star .anyChar, .once (.lit '+'), .star .anyChar] ++
          lits "set",
        lits "delete" ++ [.star .anyChar, .once (.lit '+'), .star .anyChar] ++
          lits "from"],
     severity := .critical,
     description := "Potential SQL injection vulnerability",
     recommendation := "Use parameterized queries or ORM",
     cwe_id := "CWE-89",
     owasp_category := "A03:2021 – Injection" },
   { name := "command_injection",
     patterns :=
       [lits "os.system(" ++ [.once qcls, .star .anyChar, .once (.lit '+'),
          .star .anyChar, .once qcls],
        lits "subprocess.call(" ++ [.once qcls, .star .anyChar,
          .once (.lit '+'), .star .anyChar, .once qcls],
        lits "subprocess.run(" ++ [.once qcls, .star .anyChar,
          .once (.lit '+'), .star .anyChar, .once qcls],
        lits "os.popen(" ++ [.once qcls, .star .anyChar, .once (.lit '+'),
          .star .anyChar, .once qcls]],
     severity := .critical,
     description := "Potential command injection vulnerability",
     recommendation := "Sanitize input and use subprocess with list arguments",
     cwe_id := "CWE-78",
     owasp_category := "A03:2021 – Injection" }]

/-- `_analyze_regex_patterns`: every pattern of every table entry, applied
to every (1-based) line. -/
def analyzeRegexPatterns (lines : List String) : List SecurityIssue :=
  vulnerabilityPatterns.flatMap fun pinfo =>
    pinfo.patterns.flatMap fun pat =>
      lines.enum.flatMap fun (i, line) =>
        if searchCI pat line then
          [{ issue_type := pinfo.name, severity := pinfo.severity,
             description := pinfo.description, line_number := i + 1,
             code_snippet := pyStrip line,
             recommendation := pinfo.recommendation, cwe_id := pinfo.cwe_id,
             owasp_category := pinfo.owasp_category }]
        else []

/-- The sort key of `analyze_code_security`:
`(x.severity.value, x.line_number)` under Python tuple comparison. -/
def issueKey (i : SecurityIssue) : List Char × Nat :=
  (i.severity.value.toList, i.line_number)

/-- The issue accumulation of `analyze_code_security` before its final
sort: the eight AST-based checks in program order (skipped entirely on a
`SyntaxError`, modelled by `parsed = none`), then the regex-based checks. -/
def collectIssues (parsed : Option Py) (lines : List String) :
    List SecurityIssue :=
  (match parsed with
   | some tree =>
     analyzeDangerousImports tree lines ++ analyzeHardcodedSecrets tree lines ++
       analyzeSqlInjection tree lines ++ analyzeCommandInjection tree lines ++
       analyzePathTraversal tree lines ++ analyzeDeserialization tree lines ++
       analyzeRandomUsage tree lines ++ analyzeSslIssues tree lines
   | none => []) ++ analyzeRegexPatterns lines

/-- `analyze_code_security`, as a function of the parse result and of the
line list `code.split('\n')`:
`sorted(issues, key=lambda x: (x.severity.value, x.line_number))`. -/
def analyzeCodeSecurity (parsed : Option Py) (lines : List String) :
    List SecurityIssue :=
  isort (leByKey issueKey) (collectIssues parsed lines)

/-! ## Association lists

Python `dict`s keyed by strings/tuples are embedded as association lists in
insertion order with unique keys: `alookup` is `d[k]`, `abump` is
`d[k] = d.get(k, 0) + 1` (a new key is appended, an existing entry is
updated in place, as Python dicts preserve insertion position), `aset` is
`d[k] = v`. -/

/-- Dictionary lookup (first occurrence). -/
def alookup [DecidableEq κ] : List (κ × β) → κ → Option β
  | [], _ => none
  | (k, v) :: rest, k' => if k = k' then some v else alookup rest k'

/-- `d[k] = d.get(k, 0) + 1` on a counting dictionary. -/
def abump [DecidableEq κ] : List (κ × Nat) → κ → List (κ × Nat)
  | [], k => [(k, 1)]
  | (k', v) :: rest, k =>
    if k' = k then (k', v + 1) :: rest else (k', v) :: abump rest k

/-- `d[k] = v`: overwrite in place, or append a new key. -/
def aset [DecidableEq κ] : List (κ × β) → κ → β → List (κ × β)
  | [], k, v => [(k, v)]
  | (k', v') :: rest, k, v =>
    if k' = k then (k, v) :: rest else (k', v') :: aset rest k v

/-! ## `generate_security_report`

The report's `issues_by_type` grouping and the `recommendations` produced
through `list(set(...))[:5]` (whose order depends on Python's hash-based set
iteration) are not modelled; the fields below carry everything the claims
are about.  The empty-issue report leaves `severity_counts` empty. -/

/-- The modelled fields of the report dictionary. -/
structure SecurityReport where
  filename : String
  total_issues : Nat
  risk_score : Nat
  severity_counts : List (String × Nat)
  summary : String
deriving DecidableEq

/-- The `risk_weights` table of `generate_security_report`. -/
def riskWeights : List (String × Nat) :=
  [("low", 1), ("medium", 3), ("high", 7), ("critical", 15)]

/-- `generate_security_report(issues, filename)`. -/
def generateSecurityReport (issues : List SecurityIssue) (filename : String) :
    SecurityReport :=
  if issues.isEmpty then
    { filename := filename, total_issues := 0, risk_score := 0,
      severity_counts := [], summary := "No security issues detected" }
  else
    let counts := issues.foldl (fun m i => abump m i.severity.value) []
    let risk := riskWeights.foldl
      (fun acc sw => acc + (alookup counts sw.1).getD 0 * sw.2) 0
    { filename := filename, total_issues := issues.length, risk_score := risk,
      severity_counts := counts,
      summary := "Found " ++ toString issues.length ++
        " security issues with risk score " ++ toString risk }

/-! ## Health score (`__main__.py`, `_comprehensive_checkup`) -/

/-- `health_score = 100 - min(total_security_issues * 5, 50)`. -/
def healthScore (issues : Nat) : Nat := 100 - min (issues * 5) 50

/-- The three report bands of the checkup. -/
inductive HealthBand where
  | excellent
  | good
  | needsAttention
deriving DecidableEq

/-- The `if health_score >= 90 / elif >= 70 / else` bucketing. -/
def healthBand (issues : Nat) : HealthBand :=
  if healthScore issues ≥ 90 then .excellent
  else if healthScore issues ≥ 70 then .good
  else .needsAttention

/-! ## Autonomous agent (`autonomous_agent.py`, `execute_next_task`)

Only the fields that influence task selection are modelled; `title`,
`description`, `task_type`, `file_targets`, `estimated_time`, `progress`,
`error_message`, `results` and the start/completion timestamps play no role
in `execute_next_task`'s readiness filter or its sort.  `created_at` is a
`datetime`, embedded as a `Nat` tick (only its ordering is used). -/

/-- `TaskStatus` with its literal string `value`. -/
inductive TaskStatus where
  | pending
  | inProgress
  | completed
  | failed
  | blocked
deriving DecidableEq

/-- The enum's literal string label. -/
def TaskStatus.value : TaskStatus → String
  | .pending => "pending"
  | .inProgress => "in_progress"
  | .completed => "completed"
  | .failed => "failed"
  | .blocked => "blocked"

/-- `TaskPriority` with its literal string `value`. -/
inductive TaskPriority where
  | low
  | medium
  | high
  | critical
deriving DecidableEq

/-- The enum's literal string label. -/
def TaskPriority.value : TaskPriority → String
  | .low => "low"
  | .medium => "medium"
  | .high => "high"
  | .critical => "critical"

/-- The selection-relevant fields of the `Task` dataclass. -/
structure Task where
  id : String
  priority : TaskPriority
  status : TaskStatus
  prerequisites : List String
  created_at : Nat
deriving DecidableEq

/-- The stand-in `Task("", "", "", "", TaskPriority.LOW, TaskStatus.FAILED,
[], [])` used by `self.tasks.get(prereq_id, ...)` when a prerequisite
identity is absent from the task map (its `created_at` defaults to `None`
and is never read; `0` here). -/
def defaultStubTask : Task :=
  { id := "", priority := .low, status := .failed, prerequisites := [],
    created_at := 0 }

/-- The readiness filter of `execute_next_task`: status `PENDING` and every
prerequisite resolving (through the stub default) to `COMPLETED`, over
`self.tasks.values()` in insertion order. -/
def readyTasks (tasks : List (String × Task)) : List Task :=
  (tasks.map Prod.snd).filter fun t =>
    t.status == .pending &&
      t.prerequisites.all fun pre =>
        ((alookup tasks pre).getD defaultStubTask).status == .completed

/-- The sort key `(t.priority.value, t.created_at)` of `execute_next_task`
(note: the priority's literal string label, under Python string order). -/
def taskKey (t : Task) : List Char × Nat := (t.priority.value.toList, t.created_at)

/-- The task `execute_next_task` selects: the head of the ready list sorted
by `(priority.value, created_at)`, or `None`.  (`_execute_task`'s status
mutation and persistence are not modelled; the claims are about
selection.) -/
def selectNextTask (tasks : List (String × Task)) : Option Task :=
  (isort (leByKey taskKey) (readyTasks tasks)).head?

/-! ## Pattern discovery (`pattern_discovery.py`) -/

/-- A discovered-pattern record (`{'type', 'pattern', 'frequency',
'description'}`). -/
structure PatternRec where
  ptype : String
  pattern : String
  frequency : Nat
  description : String
deriving DecidableEq

/-- `hashlib.md5(pattern['pattern'].encode()).hexdigest()[:10]`: the
identity key of a discovered pattern. -/
def patternId (s : String) : String := strTake (md5Hex s) 10

/-- The store-update loop of `discover_patterns`:
`self.discovered_patterns[pattern_id] = pattern` for each pattern of the
run, over the accumulating map loaded at construction. -/
def updatePatterns (store : List (String × PatternRec))
    (ps : List PatternRec) : List (String × PatternRec) :=
  ps.foldl (fun st p => aset st (patternId p.pattern) p) store

/-- `seq[i:j]` on a node-kind sequence. -/
def sliceTake (s : List String) (i j : Nat) : List String :=
  (s.drop i).take (j - i)

/-- The span enumeration of `_find_common_subsequences` (with
`min_length = 3`): every `seq[i:j]` for `i in range(len - 3 + 1)` and
`j in range(i + 3, len + 1)`; the Python `len(subseq) >= min_length` guard
is always true for these spans.  Python's integer `len - 3 + 1` ≤ 0 gives
an empty range, matching `Nat` truncation in `len - 2`. -/
def subseqSpans (s : List String) : List (List String) :=
  (List.range (s.length - 2)).flatMap fun i =>
    (List.range (s.length - i - 2)).map fun k => sliceTake s i (i + 3 + k)

/-- The `defaultdict(int)` of `_find_common_subsequences`, accumulated over
every span of every sequence. -/
def buildCounts (seqs : List (List String)) : List (List String × Nat) :=
  seqs.foldl (fun m s => (subseqSpans s).foldl abump m) []

/-- `' -> '.join(sequence)`. -/
def joinArrow (t : List String) : String := String.intercalate " -> " t

/-- The `ast_sequence` pattern record built for a counted subsequence. -/
def mkAstEntry (t : List String) (count : Nat) : PatternRec :=
  { ptype := "ast_sequence", pattern := joinArrow t, frequency := count,
    description := "Common AST node sequence: " ++ joinArrow t }

/-- `_discover_ast_patterns` as a function of the node-kind sequences of
the parseable samples (`_extract_node_sequence` output; parsing is the
embedding boundary): keep sequences of length `> 2`, count every span, and
report each subsequence whose count exceeds 2. -/
def discoverAstPatterns (seqs : List (List String)) : List PatternRec :=
  let nodeSequences := seqs.filter fun s => s.length > 2
  let common := buildCounts nodeSequences
  common.flatMap fun tc => if tc.2 > 2 then [mkAstEntry tc.1 tc.2] else []

/-- Specification-side count: the number of positions at which `t` occurs
as a contiguous subsequence of `s` (0 for `t` shorter than 3, the mining
floor). -/
def occCount (t s : List String) : Nat :=
  if 3 ≤ t.length then
    ((List.range (s.length + 1)).filter fun i =>
      decide (i + t.length ≤ s.length) && (sliceTake s i (i + t.length) == t)).length
  else 0

/-- Total occurrence-span count of `t` across all sample sequences. -/
def totalOcc (seqs : List (List String)) (t : List String) : Nat :=
  (seqs.map (occCount t)).sum

/-- The number of distinct samples in which `t` occurs at all (the unit the
specification's "more than 2 samples" talks about). -/
def samplesContaining (seqs : List (List String)) (t : List String) : Nat :=
  (seqs.filter fun s => occCount t s != 0).length

/-! ## Document processor (`document_processor.py`) -/

/-- `hashlib.md5(str(file_path).encode()).hexdigest()[:10]`: the identity
of a processed document, derived from the file path string. -/
def docId (filePath : String) : String := strTake (md5Hex filePath) 10

/-- `file_path.name`: the component after the last `/`. -/
def pyBasename (p : String) : String :=
  String.mk ((p.toList.reverse.takeWhile fun c => c != '/').reverse)

/-- The identity-bearing fields of the document record built by
`_process_doc_file` from a path and the file's text.  The extracted
sections/functions/classes/examples/keywords are pure functions of
`content` and play no role in the identity claims, so they are not
carried. -/
structure Document where
  id : String
  path : String
  filename : String
  content : String
deriving DecidableEq

/-- `_process_doc_file`, as a function of the path and the text read from
it. -/
def processDocFile (path content : String) : Document :=
  { id := docId path, path := path, filename := pyBasename path,
    content := content }

/-- The filesystem view `ingest_documentation` dispatches on: a single
file, or a directory whose recursive `*.rst` / `*.md` / `*.txt` globs are
the three path lists (processed in that order). -/
inductive FSNode where
  | file (path : String)
  | dir (rstFiles mdFiles txtFiles : List String)

/-- `ingest_documentation(docs_path)` over explicit state `St` (the
processor's `doc_embeddings`/`doc_index` pair): `fs = none` models a
non-existent path, the flag models `os.access(docs_path, os.R_OK)`;
`processFile` models `_process_doc_file` (`none` = a discarded failure) and
`createIndex` models `_create_doc_index` (the only state mutation;
`_save_processed_docs` writes only to disk). -/
def ingestDocumentation {D St : Type} (processFile : String → Option D)
    (createIndex : St → List D → St) (fs : Option (Bool × FSNode))
    (st : St) : Nat × St :=
  match fs with
  | none => (0, st)
  | some (readable, node) =>
    if !readable then (0, st)
    else
      let results :=
        match node with
        | .file p => [processFile p]
        | .dir rst md txt => (rst ++ md ++ txt).map processFile
      let processed := results.filterMap id
      if processed.isEmpty then (0, st)
      else (processed.length, createIndex st processed)

/-! ## Project analyzer (`project_analyzer.py`) -/

/-- Is the node an `ast.FunctionDef`? -/
def isFunctionDefB : Py → Bool
  | .functionDef _ _ _ _ _ => true
  | _ => false

/-- Is the node an `ast.AsyncFunctionDef`? -/
def isAsyncFunctionDefB : Py → Bool
  | .asyncFunctionDef _ _ _ _ _ => true
  | _ => false

/-- Is the node one of `ast.If`, `ast.For`, `ast.While` (the per-function
branch counter of `_extract_functions`)? -/
def isBranchNodeB : Py → Bool
  | .ifStmt _ _ _ _ => true
  | .forStmt _ _ _ _ => true
  | .whileStmt _ _ _ => true
  | _ => false

/-- `_get_decorator_name`.  The `str(decorator)` fallback returns an
address-bearing `repr` in Python; it is modelled by a fixed placeholder,
which no claim inspects. -/
def getDecoratorName : Py → String
  | .nameExpr _ i => i
  | .attributeExpr _ v a =>
    match v with
    | .nameExpr _ vi => vi ++ "." ++ a
    | _ => a
  | .callExpr _ f _ => getDecoratorName f
  | _ => "<ast-node>"

/-- One record of the per-file `functions` list. -/
structure FunctionRec where
  name : String
  args : Nat
  is_async : Bool
  decorators : List String
  line_number : Nat
  complexity : Nat
deriving DecidableEq

/-- The record `_extract_functions` appends for one walked node: only an
`ast.FunctionDef` contributes; `is_async` is computed, as in the source, by
re-testing the matched node against `ast.AsyncFunctionDef`, and
`complexity` counts the `If`/`For`/`While` nodes of the function's own
walk. -/
def extractFunctionRec : Py → List FunctionRec
  | .functionDef ln nm argc body decs =>
    [{ name := nm, args := argc,
       is_async := isAsyncFunctionDefB (.functionDef ln nm argc body decs),
       decorators := decs.toList.map getDecoratorName,
       line_number := ln,
       complexity :=
         ((pyWalk (.functionDef ln nm argc body decs)).filter isBranchNodeB).length }]
  | _ => []

/-- `_extract_functions`: walk the tree and record every `ast.FunctionDef`
node. -/
def extractFunctions (tree : Py) : List FunctionRec :=
  (pyWalk tree).flatMap extractFunctionRec

/-- The `async_usage` counters of `_detect_async_usage`. -/
structure AsyncUsage where
  async_functions : Nat
  await_expressions : Nat
deriving DecidableEq

/-- The per-node accumulator step of `_detect_async_usage`. -/
def asyncStep (acc : AsyncUsage) : Py → AsyncUsage
  | .asyncFunctionDef _ _ _ _ _ =>
    { acc with async_functions := acc.async_functions + 1 }
  | .awaitExpr _ _ =>
    { acc with await_expressions := acc.await_expressions + 1 }
  | _ => acc

/-- `_detect_async_usage`: count `ast.AsyncFunctionDef` nodes and
`ast.Await` expressions over the walk. -/
def detectAsyncUsage (tree : Py) : AsyncUsage :=
  (pyWalk tree).foldl asyncStep ⟨0, 0⟩

/-- Is the node an `ast.Await` expression? -/
def isAwaitB : Py → Bool
  | .awaitExpr _ _ => true
  | _ => false

/-! ## Specification-side definitions

These definitions follow the specification's words (not the code) and are
compared against the embedded code: the severity progression
`low < medium < high < critical` the specification sorts by, and the
orderedness predicate it asserts of `analyze_code_security`'s result. -/

/-- The specification's severity progression `low < medium < high <
critical`, as a rank. -/
def specSeverityRank : VulnerabilityLevel → Nat
  | .low => 0
  | .medium => 1
  | .high => 2
  | .critical => 3

/-- The specification's orderedness claim: every consecutive pair is
ordered by the severity progression, ties broken by ascending line
number. -/
def specOrderedB : List SecurityIssue → Bool
  | [] => true
  | [_] => true
  | a :: b :: rest =>
    (specSeverityRank a.severity < specSeverityRank b.severity ||
      (specSeverityRank a.severity == specSeverityRank b.severity &&
        a.line_number ≤ b.line_number)) &&
      specOrderedB (b :: rest)

/-- The well-formedness invariant the pattern store maintains: keys are
distinct and every entry is keyed by the hash of its own canonical pattern
string. -/
def StoreWF (store : List (String × PatternRec)) : Prop :=
  (store.map Prod.fst).Nodup ∧ ∀ kv ∈ store, kv.1 = patternId kv.2.pattern

/-! ## Concrete example inputs used by witnesses and counterexamples -/

/-- The parse tree of `"import pickle\npickle.loads(data)"`. -/
def secExTree : Py :=
  .module (pl [.importStmt 1 [("pickle", none)],
    .exprStmt 2 (.callExpr 2
      (.attributeExpr 2 (.nameExpr 2 "pickle") "loads")
      (pl [.nameExpr 2 "data"]))])

/-- The line list of `"import pickle\npickle.loads(data)"`. -/
def secExLines : List String := ["import pickle", "pickle.loads(data)"]

/-- The parse tree of `"password = \"super_secret_password\""`. -/
def secretExTree : Py :=
  .module (pl [.assign 1 (pl [.nameExpr 1 "password"])
    (.constantStr 1 "super_secret_password")])

/-- The line list of `"password = \"super_secret_password\""`. -/
def secretExLines : List String := ["password = \"super_secret_password\""]

/-- Example task A: no prerequisites. -/
def taskA : Task :=
  { id := "a", priority := .medium, status := .pending, prerequisites := [],
    created_at := 0 }

/-- Example task B: prerequisite `"a"`. -/
def taskB : Task :=
  { id := "b", priority := .high, status := .pending, prerequisites := ["a"],
    created_at := 1 }

/-- Task map with A pending. -/
def taskMapPending : List (String × Task) := [("a", taskA), ("b", taskB)]

/-- Task map with A in progress. -/
def taskMapInProgress : List (String × Task) :=
  [("a", { taskA with status := .inProgress }), ("b", taskB)]

/-- Task map with A completed. -/
def taskMapDone : List (String × Task) :=
  [("a", { taskA with status := .completed }), ("b", taskB)]

/-- Task map in which B's prerequisite identity is absent. -/
def taskMapMissing : List (String × Task) := [("b", taskB)]

/-- An example pattern record as run 1 would produce it. -/
def patRun1 : PatternRec :=
  { ptype := "ast_sequence", pattern := "Module -> Assign -> Name",
    frequency := 3,
    description := "Common AST node sequence: Module -> Assign -> Name" }

/-- The same canonical pattern string, rediscovered by run 2 with a
different frequency. -/
def patRun2 : PatternRec :=
  { ptype := "ast_sequence", pattern := "Module -> Assign -> Name",
    frequency := 5,
    description := "Common AST node sequence: Module -> Assign -> Name" }

/-- A single node-kind sequence in which `A B A` occurs at three
positions. -/
def seqBatchOne : List (List String) :=
  [["A", "B", "A", "B", "A", "B", "A", "B"]]

/-- The parse tree of a module with one plain function and one async
function containing an await. -/
def asyncExTree : Py :=
  .module (pl [.functionDef 1 "sync_fn" 2 (pl [.constantOther 2]) (pl []),
    .asyncFunctionDef 3 "async_fn" 1
      (pl [.exprStmt 4 (.awaitExpr 4 (.callExpr 4 (.nameExpr 4 "g") (pl [])))])
      (pl [])])

/-! ## General lemmas about the ordering and sorting helpers -/

theorem listLtB_irrefl (a : List Char) : listLtB a a = false := by
  induction a with
  | nil => rfl
  | cons c t ih => simp [listLtB, ih]

theorem listLtB_trans {a b c : List Char} (h1 : listLtB a b = true)
    (h2 : listLtB b c = true) : listLtB a c = true := by
  induction a generalizing b c with
  | nil =>
    cases b with
    | nil => simp [listLtB] at h1
    | cons y ys => cases c with
      | nil => simp [listLtB] at h2
      | cons z zs => simp [listLtB]
  | cons x xs ih =>
    cases b with
    | nil => simp [listLtB] at h1
    | cons y ys =>
      cases c with
      | nil => simp [listLtB] at h2
      | cons z zs =>
        simp only [listLtB] at h1 h2 ⊢
        rcases Nat.lt_trichotomy x.toNat y.toNat with hxy | hxy | hxy
        · rcases Nat.lt_trichotomy y.toNat z.toNat with hyz | hyz | hyz
          · simp [Nat.lt_trans hxy hyz]
          · have : x.toNat < z.toNat := by omega
            simp [this]
          · have hn1 : ¬ y.toNat < z.toNat := by omega
            simp [hn1, hyz] at h2
        · rcases Nat.lt_trichotomy y.toNat z.toNat with hyz | hyz | hyz
          · have : x.toNat < z.toNat := by omega
            simp [this]
          · have hn1 : ¬ x.toNat < y.toNat := by omega
            have hn2 : ¬ y.toNat < x.toNat := by omega
            have hn3 : ¬ y.toNat < z.toNat := by omega
            have hn4 : ¬ z.toNat < y.toNat := by omega
            have hn5 : ¬ x.toNat < z.toNat := by omega
            have hn6 : ¬ z.toNat < x.toNat := by omega
            simp only [hn1, hn2, if_false] at h1
            simp only [hn3, hn4, if_false] at h2
            simp [hn5, hn6, ih h1 h2]
          · have hn1 : ¬ y.toNat < z.toNat := by omega
            simp [hn1, hyz] at h2
        · have hn1 : ¬ x.toNat < y.toNat := by omega
          simp [hn1, hxy] at h1

theorem char_eq_of_toNat_eq {a b : Char} (h : a.toNat = b.toNat) : a = b :=
  Char.ext (UInt32.ext h)

theorem listLtB_conn {a b : List Char} (h1 : listLtB a b = false)
    (h2 : listLtB b a = false) : a = b := by
  induction a generalizing b with
  | nil =>
    cases b with
    | nil => rfl
    | cons y ys => simp [listLtB] at h1
  | cons x xs ih =>
    cases b with
    | nil => simp [listLtB] at h2
    | cons y ys =>
      simp only [listLtB] at h1 h2
      rcases Nat.lt_trichotomy x.toNat y.toNat with hxy | hxy | hxy
      · simp [hxy] at h1
      · have hn1 : ¬ x.toNat < y.toNat := by omega
        have hn2 : ¬ y.toNat < x.toNat := by omega
        simp only [hn1, hn2, if_false] at h1 h2
        rw [char_eq_of_toNat_eq hxy, ih h1 h2]
      · simp [hxy] at h2

theorem pyLtB_trans {a b c : List Char × Nat} (h1 : pyLtB a b = true)
    (h2 : pyLtB b c = true) : pyLtB a c = true := by
  simp only [pyLtB, Bool.or_eq_true, Bool.and_eq_true, beq_iff_eq,
    decide_eq_true_eq] at h1 h2 ⊢
  rcases h1 with h1 | ⟨he1, hn1⟩
  · rcases h2 with h2 | ⟨he2, hn2⟩
    · exact Or.inl (listLtB_trans h1 h2)
    · exact Or.inl (he2 ▸ h1)
  · rcases h2 with h2 | ⟨he2, hn2⟩
    · exact Or.inl (he1 ▸ h2)
    · exact Or.inr ⟨he1.trans he2, Nat.lt_trans hn1 hn2⟩

theorem pyLtB_conn {a b : List Char × Nat} (h1 : pyLtB a b = false)
    (h2 : pyLtB b a = false) : a = b := by
  simp only [pyLtB, Bool.or_eq_false_iff] at h1 h2
  have he : a.1 = b.1 := listLtB_conn h1.1 h2.1
  have h1' := h1.2
  have h2' := h2.2
  rw [he] at h1'
  rw [← he] at h2'
  simp only [beq_self_eq_true, Bool.true_and, decide_eq_false_iff_not] at h1' h2'
  have hn : a.2 = b.2 := by omega
  cases a; cases b
  simp only at he hn
  rw [he, hn]

theorem mem_insertLe {le : α → α → Bool} {x a : α} {l : List α} :
    a ∈ insertLe le x l ↔ a = x ∨ a ∈ l := by
  induction l with
  | nil => simp [insertLe]
  | cons y ys ih =>
    simp only [insertLe]
    cases h : le x y
    · simp only [Bool.false_eq_true, if_false, List.mem_cons, ih]
      tauto
    · simp [List.mem_cons]

theorem mem_isort {le : α → α → Bool} {a : α} {l : List α} :
    a ∈ isort le l ↔ a ∈ l := by
  induction l with
  | nil => simp [isort]
  | cons x xs ih => simp [isort, mem_insertLe, ih]

theorem sortedB_insertLe {le : α → α → Bool}
    (total : ∀ a b, le a b = true ∨ le b a = true)
    (htrans : ∀ a b c, le a b = true → le b c = true → le a c = true)
    {x : α} {l : List α} (h : SortedB le l) : SortedB le (insertLe le x l) := by
  induction l with
  | nil => simp [insertLe, SortedB]
  | cons y ys ih =>
    rcases h with - | ⟨hy, hys⟩
    unfold SortedB
    simp only [insertLe]
    cases hxy : le x y
    · have hyx : le y x = true := (total x y).resolve_left (by simp [hxy])
      simp only [Bool.false_eq_true, if_false]
      refine List.Pairwise.cons ?_ (ih hys)
      intro z hz
      rcases mem_insertLe.mp hz with rfl | hz
      · exact hyx
      · exact hy _ hz
    · simp only [if_true]
      refine List.Pairwise.cons ?_ (List.Pairwise.cons hy hys)
      intro z hz
      rcases List.mem_cons.mp hz with rfl | hz
      · exact hxy
      · exact htrans _ _ _ hxy (hy _ hz)

theorem sortedB_isort {le : α → α → Bool}
    (total : ∀ a b, le a b = true ∨ le b a = true)
    (htrans : ∀ a b c, le a b = true → le b c = true → le a c = true)
    (l : List α) : SortedB le (isort le l) := by
  induction l with
  | nil => exact List.Pairwise.nil
  | cons x xs ih => exact sortedB_insertLe total htrans ih

theorem pyLtB_asymm {a b : List Char × Nat} (h1 : pyLtB a b = true)
    (h2 : pyLtB b a = true) : False := by
  have := pyLtB_trans h1 h2
  simp [pyLtB, listLtB_irrefl] at this

theorem leByKey_total (key : α → List Char × Nat) (a b : α) :
    leByKey key a b = true ∨ leByKey key b a = true := by
  simp only [leByKey, Bool.not_eq_true']
  by_cases h1 : pyLtB (key b) (key a) = true
  · by_cases h2 : pyLtB (key a) (key b) = true
    · exact absurd (pyLtB_asymm h1 h2) (by simp)
    · right; revert h2; cases pyLtB (key a) (key b) <;> simp
  · left; revert h1; cases pyLtB (key b) (key a) <;> simp

theorem leByKey_trans (key : α → List Char × Nat) (a b c : α)
    (h1 : leByKey key a b = true) (h2 : leByKey key b c = true) :
    leByKey key a c = true := by
  simp only [leByKey, Bool.not_eq_true'] at h1 h2 ⊢
  by_contra hc
  have hca : pyLtB (key c) (key a) = true := by
    revert hc; cases pyLtB (key c) (key a) <;> simp
  by_cases hab : pyLtB (key a) (key b) = true
  · exact absurd (pyLtB_trans hca hab) (by simp [h2])
  · have hab' : pyLtB (key a) (key b) = false := by
      revert hab; cases pyLtB (key a) (key b) <;> simp
    have hba : key b = key a := pyLtB_conn h1 hab'
    rw [hba] at h2
    exact absurd hca (by simp [h2])

theorem perm_insertLe {le : α → α → Bool} (x : α) (l : List α) :
    (insertLe le x l).Perm (x :: l) := by
  induction l with
  | nil => simp [insertLe]
  | cons y ys ih =>
    simp only [insertLe]
    cases le x y
    · simp only [Bool.false_eq_true, if_false]
      exact (ih.cons y).trans (List.Perm.swap x y ys)
    · simp

theorem perm_isort {le : α → α → Bool} (l : List α) :
    (isort le l).Perm l := by
  induction l with
  | nil => simp [isort]
  | cons x xs ih => exact (perm_insertLe x (isort le xs)).trans (ih.cons x)

/-! ## Association-list lemmas -/

theorem alookup_abump [DecidableEq κ] (m : List (κ × Nat)) (k k' : κ) :
    alookup (abump m k) k' =
      if k' = k then some ((alookup m k').getD 0 + 1) else alookup m k' := by
  induction m with
  | nil =>
    by_cases h : k' = k
    · subst h; simp [abump, alookup]
    · have h' : ¬ k = k' := fun hh => h hh.symm
      simp [abump, alookup, h, h']
  | cons kv rest ih =>
    obtain ⟨k0, v0⟩ := kv
    by_cases h0 : k0 = k
    · subst h0
      by_cases h : k' = k0
      · subst h; simp [abump, alookup]
      · have h' : ¬ k0 = k' := fun hh => h hh.symm
        simp [abump, alookup, h, h']
    · by_cases h : k0 = k'
      · subst h
        simp [abump, alookup, h0]
      · simp [abump, alookup, h0, h, ih]

theorem alookup_foldl_abump [DecidableEq κ] (L : List κ) (m : List (κ × Nat))
    (k : κ) :
    (alookup (L.foldl abump m) k).getD 0 =
      (alookup m k).getD 0 + L.countP fun a => decide (a = k) := by
  induction L generalizing m with
  | nil => simp
  | cons a L ih =>
    rw [List.foldl_cons, ih, alookup_abump]
    by_cases h : k = a
    · subst h
      simp [List.countP_cons]
      omega
    · have h2 : ¬ a = k := fun hh => h hh.symm
      simp only [if_neg h, List.countP_cons, h2]
      simp [h2]

theorem keysOf_abump [DecidableEq κ] (m : List (κ × Nat)) (k : κ) :
    (abump m k).map Prod.fst =
      if k ∈ m.map Prod.fst then m.map Prod.fst else m.map Prod.fst ++ [k] := by
  induction m with
  | nil => simp [abump]
  | cons kv rest ih =>
    obtain ⟨k0, v0⟩ := kv
    by_cases h0 : k0 = k
    · subst h0; simp [abump]
    · have h0' : ¬ k = k0 := fun hh => h0 hh.symm
      simp only [abump, if_neg h0, List.map_cons, List.mem_cons]
      rw [ih]
      by_cases hm : k ∈ rest.map Prod.fst
      · simp [hm]
      · simp [hm, h0']

theorem nodupKeys_abump [DecidableEq κ] {m : List (κ × Nat)} (k : κ)
    (h : (m.map Prod.fst).Nodup) : ((abump m k).map Prod.fst).Nodup := by
  rw [keysOf_abump]
  by_cases hm : k ∈ m.map Prod.fst
  · simpa [hm]
  · simp only [hm, if_false]
    simpa using List.Nodup.append h (by simp) (by simpa using hm)

theorem mem_of_alookup [DecidableEq κ] {m : List (κ × β)} {k : κ} {v : β}
    (h : alookup m k = some v) : (k, v) ∈ m := by
  induction m with
  | nil => simp [alookup] at h
  | cons kv rest ih =>
    obtain ⟨k0, v0⟩ := kv
    by_cases h0 : k0 = k
    · subst h0
      have hv : v0 = v := by simpa [alookup] using h
      subst hv
      simp
    · simp only [alookup, if_neg h0] at h
      exact List.mem_cons_of_mem _ (ih h)

theorem alookup_eq_of_mem_nodup [DecidableEq κ] {m : List (κ × β)} {k : κ}
    {v : β} (hmem : (k, v) ∈ m) (hnd : (m.map Prod.fst).Nodup) :
    alookup m k = some v := by
  induction m with
  | nil => simp at hmem
  | cons kv rest ih =>
    obtain ⟨k0, v0⟩ := kv
    rcases List.mem_cons.mp hmem with heq | hmem'
    · injection heq with h1 h2
      subst h1; subst h2
      simp [alookup]
    · have hk : k0 ≠ k := by
        intro hh
        subst hh
        have : k0 ∈ rest.map Prod.fst :=
          List.mem_map.mpr ⟨(k0, v), hmem', rfl⟩
        simp [this] at hnd
      simp only [alookup, if_neg hk]
      exact ih hmem' (by simpa using hnd.of_cons)

theorem alookup_aset [DecidableEq κ] (m : List (κ × β)) (k k' : κ) (v : β) :
    alookup (aset m k v) k' = if k' = k then some v else alookup m k' := by
  induction m with
  | nil =>
    by_cases h : k' = k
    · subst h; simp [aset, alookup]
    · have h' : ¬ k = k' := fun hh => h hh.symm
      simp [aset, alookup, h, h']
  | cons kv rest ih =>
    obtain ⟨k0, v0⟩ := kv
    by_cases h0 : k0 = k
    · subst h0
      by_cases h : k' = k0
      · subst h; simp [aset, alookup]
      · have h' : ¬ k0 = k' := fun hh => h hh.symm
        simp [aset, alookup, h, h']
    · by_cases h : k0 = k'
      · subst h
        simp [aset, alookup, h0]
      · simp [aset, alookup, h0, h, ih]

theorem keysOf_aset [DecidableEq κ] (m : List (κ × β)) (k : κ) (v : β) :
    (aset m k v).map Prod.fst =
      if k ∈ m.map Prod.fst then m.map Prod.fst else m.map Prod.fst ++ [k] := by
  induction m with
  | nil => simp [aset]
  | cons kv rest ih =>
    obtain ⟨k0, v0⟩ := kv
    by_cases h0 : k0 = k
    · subst h0; simp [aset]
    · have h0' : ¬ k = k0 := fun hh => h0 hh.symm
      simp only [aset, if_neg h0, List.map_cons, List.mem_cons]
      rw [ih]
      by_cases hm : k ∈ rest.map Prod.fst
      · simp [hm]
      · simp [hm, h0']

/-! ## Pattern-store lemmas -/

theorem alookup_updatePatterns (ps : List PatternRec)
    (store : List (String × PatternRec)) (k : String) :
    alookup (updatePatterns store ps) k =
      match ps.reverse.find? (fun p => patternId p.pattern == k) with
      | some p => some p
      | none => alookup store k := by
  induction ps generalizing store with
  | nil => simp [updatePatterns]
  | cons p ps ih =>
    show alookup (updatePatterns (aset store (patternId p.pattern) p) ps) k = _
    rw [ih, List.reverse_cons, List.find?_append]
    cases hf : ps.reverse.find? (fun q => patternId q.pattern == k) with
    | some q => simp [Option.or]
    | none =>
      simp only [Option.or, List.find?]
      by_cases hp : patternId p.pattern = k
      · simp only [hp, beq_self_eq_true]
        rw [alookup_aset]
        simp [hp]
      · have hp' : (patternId p.pattern == k) = false := by simpa using hp
        simp only [hp', alookup_aset]
        have : ¬ k = patternId p.pattern := fun hh => hp hh.symm
        simp [this]

theorem aset_mem_keyed {store : List (String × PatternRec)} {p : PatternRec}
    (hkey : ∀ kv ∈ store, kv.1 = patternId kv.2.pattern) :
    ∀ kv ∈ aset store (patternId p.pattern) p,
      kv.1 = patternId kv.2.pattern := by
  induction store with
  | nil =>
    intro kv hkv
    simp only [aset, List.mem_singleton] at hkv
    subst hkv
    rfl
  | cons kv0 rest ih =>
    obtain ⟨k0, v0⟩ := kv0
    intro kv hkv
    by_cases h0 : k0 = patternId p.pattern
    · simp only [aset, if_pos h0] at hkv
      rcases List.mem_cons.mp hkv with rfl | hmem
      · rfl
      · exact hkey kv (List.mem_cons_of_mem _ hmem)
    · simp only [aset, if_neg h0] at hkv
      rcases List.mem_cons.mp hkv with rfl | hmem
      · exact hkey _ (List.mem_cons_self _ _)
      · exact ih (fun kv' hkv' => hkey kv' (List.mem_cons_of_mem _ hkv')) kv hmem

theorem storeWF_aset {store : List (String × PatternRec)} {p : PatternRec}
    (h : StoreWF store) : StoreWF (aset store (patternId p.pattern) p) := by
  obtain ⟨hnd, hkey⟩ := h
  constructor
  · rw [keysOf_aset]
    by_cases hm : patternId p.pattern ∈ store.map Prod.fst
    · simpa [hm]
    · simp only [hm, if_false]
      exact List.Nodup.append hnd (by simp) (by simpa using hm)
  · exact aset_mem_keyed hkey

theorem storeWF_updatePatterns {store : List (String × PatternRec)}
    (ps : List PatternRec) (h : StoreWF store) :
    StoreWF (updatePatterns store ps) := by
  induction ps generalizing store with
  | nil => exact h
  | cons p ps ih => exact ih (storeWF_aset h)

/-! ## Counting lemmas for the AST-subsequence mining -/

theorem sliceTake_length (s : List String) (i j : Nat) :
    (sliceTake s i j).length = min (j - i) (s.length - i) := by
  simp [sliceTake]

theorem countP_range_eq_zero {p : Nat → Bool} {n : Nat}
    (h : ∀ k, k < n → p k = false) : (List.range n).countP p = 0 := by
  rw [List.countP_eq_zero]
  intro a ha
  simp [h a (List.mem_range.mp ha)]

theorem countP_range_unique (p : Nat → Bool) (n k0 : Nat)
    (h : ∀ k, k < n → p k = true → k = k0) :
    (List.range n).countP p = if k0 < n ∧ p k0 = true then 1 else 0 := by
  induction n with
  | zero => simp
  | succ n ih =>
    rw [List.range_succ, List.countP_append]
    by_cases hn : p n = true
    · have hk0 : n = k0 := h n (Nat.lt_succ_self n) hn
      subst hk0
      have hz : (List.range n).countP p = 0 := by
        apply countP_range_eq_zero
        intro k hk
        cases hpk : p k with
        | false => rfl
        | true =>
          exact absurd (h k (Nat.lt_succ_of_lt hk) hpk) (Nat.ne_of_lt hk)
      simp [hz, hn, Nat.lt_succ_self]
    · have hn' : p n = false := by revert hn; cases p n <;> simp
      have step : List.countP p [n] = 0 := by simp [List.countP_cons, hn']
      rw [step, ih fun k hk hpk => h k (Nat.lt_succ_of_lt hk) hpk]
      by_cases hk : k0 < n
      · simp [hk, Nat.lt_succ_of_lt hk]
      · by_cases hke : k0 = n
        · subst hke; simp [hn', hk]
        · have hk' : ¬ k0 < n + 1 := by omega
          simp [hk, hk']

theorem count_innerSpans (s t : List String) (i : Nat) :
    (((List.range (s.length - i - 2)).map fun k =>
        sliceTake s i (i + 3 + k)).countP fun a => decide (a = t)) =
      if 3 ≤ t.length ∧ i + t.length ≤ s.length ∧
          sliceTake s i (i + t.length) = t
      then 1 else 0 := by
  rw [List.countP_map]
  have hlen : ∀ k, k < s.length - i - 2 →
      (sliceTake s i (i + 3 + k)).length = 3 + k := by
    intro k hk
    rw [sliceTake_length]
    omega
  rw [countP_range_unique _ _ (t.length - 3)]
  · simp only [Function.comp_apply, decide_eq_true_eq]
    by_cases hT : 3 ≤ t.length
    · have harg : i + 3 + (t.length - 3) = i + t.length := by omega
      rw [harg]
      by_cases hle : i + t.length ≤ s.length
      · have hk0 : t.length - 3 < s.length - i - 2 := by omega
        by_cases hsl : sliceTake s i (i + t.length) = t
        · simp [hT, hle, hsl, hk0]
        · simp [hT, hle, hsl, hk0]
      · have hk0 : ¬ t.length - 3 < s.length - i - 2 := by omega
        simp [hle, hk0]
    · by_cases hin : t.length - 3 < s.length - i - 2
      · have h1 := hlen (t.length - 3) hin
        have hne : ¬ sliceTake s i (i + 3 + (t.length - 3)) = t := by
          intro heq
          rw [heq] at h1
          omega
        simp [hT, hin, hne]
      · simp [hT, hin]
  · intro k hk hpk
    simp only [Function.comp_apply, decide_eq_true_eq] at hpk
    have h1 := hlen k hk
    rw [hpk] at h1
    omega

theorem sum_map_ite_one (l : List Nat) (p : Nat → Bool) :
    (l.map fun i => if p i = true then 1 else 0).sum = l.countP p := by
  induction l with
  | nil => simp
  | cons a l ih =>
    rw [List.map_cons, List.sum_cons, List.countP_cons, ih]
    omega

theorem countP_range_stable (p : Nat → Bool) {m : Nat}
    (h : ∀ k, p k = true → k < m) :
    ∀ {n : Nat}, m ≤ n → (List.range n).countP p = (List.range m).countP p := by
  intro n
  induction n with
  | zero =>
    intro hm
    have : m = 0 := Nat.le_zero.mp hm
    rw [this]
  | succ n ih =>
    intro hm
    rcases Nat.lt_or_ge m (n + 1) with hlt | hge
    · have hmn : m ≤ n := by omega
      have hn : p n = false := by
        cases hp : p n with
        | false => rfl
        | true => exact absurd (h n hp) (by omega)
      rw [List.range_succ, List.countP_append, ih hmn]
      simp [List.countP_cons, hn]
    · have : m = n + 1 := by omega
      rw [this]

theorem count_subseqSpans (s t : List String) :
    ((subseqSpans s).countP fun a => decide (a = t)) = occCount t s := by
  unfold subseqSpans
  rw [List.countP_flatMap]
  have hmap : (List.map
      ((List.countP fun a => decide (a = t)) ∘ fun i =>
        (List.range (s.length - i - 2)).map fun k =>
          sliceTake s i (i + 3 + k)) (List.range (s.length - 2))) =
      (List.range (s.length - 2)).map fun i =>
        if (fun i => decide (3 ≤ t.length) &&
            (decide (i + t.length ≤ s.length) &&
              decide (sliceTake s i (i + t.length) = t))) i = true
        then 1 else 0 := by
    apply List.map_congr_left
    intro i _
    rw [Function.comp_apply, count_innerSpans]
    by_cases h1 : 3 ≤ t.length
    · by_cases h2 : i + t.length ≤ s.length
      · by_cases h3 : sliceTake s i (i + t.length) = t
        · simp [h1, h2, h3]
        · simp [h1, h2, h3]
      · simp [h1, h2]
    · simp [h1]
  rw [hmap, sum_map_ite_one]
  by_cases hT : 3 ≤ t.length
  · have hocc : occCount t s =
        (List.range (s.length + 1)).countP fun i =>
          decide (i + t.length ≤ s.length) &&
            (sliceTake s i (i + t.length) == t) := by
      rw [occCount, if_pos hT, List.countP_eq_length_filter]
    rw [hocc]
    have hcongr : ((List.range (s.length - 2)).countP fun i =>
        decide (3 ≤ t.length) && (decide (i + t.length ≤ s.length) &&
          decide (sliceTake s i (i + t.length) = t))) =
        ((List.range (s.length - 2)).countP fun i =>
          decide (i + t.length ≤ s.length) &&
            (sliceTake s i (i + t.length) == t)) := by
      apply List.countP_congr
      intro k _
      simp [hT]
    rw [hcongr]
    have hb : ∀ k, (decide (k + t.length ≤ s.length) &&
        (sliceTake s k (k + t.length) == t)) = true → k < s.length - 2 := by
      intro k hk
      simp only [Bool.and_eq_true, decide_eq_true_eq] at hk
      omega
    exact (countP_range_stable _ hb (by omega)).symm
  · have h0 : occCount t s = 0 := by rw [occCount, if_neg hT]
    rw [h0]
    apply countP_range_eq_zero
    intro k _
    simp [hT]

theorem alookup_buildCounts_gen (seqs : List (List String))
    (m : List (List String × Nat)) (t : List String) :
    (alookup (seqs.foldl (fun m s => (subseqSpans s).foldl abump m) m) t).getD 0 =
      (alookup m t).getD 0 + totalOcc seqs t := by
  induction seqs generalizing m with
  | nil => simp [totalOcc]
  | cons s seqs ih =>
    rw [List.foldl_cons, ih, alookup_foldl_abump, count_subseqSpans]
    simp only [totalOcc, List.map_cons, List.sum_cons]
    omega

theorem alookup_buildCounts (seqs : List (List String)) (t : List String) :
    (alookup (buildCounts seqs) t).getD 0 = totalOcc seqs t := by
  have := alookup_buildCounts_gen seqs [] t
  simpa [buildCounts, alookup] using this

theorem nodupKeys_foldl_abump [DecidableEq κ] (L : List κ)
    {m : List (κ × Nat)} (h : (m.map Prod.fst).Nodup) :
    ((L.foldl abump m).map Prod.fst).Nodup := by
  induction L generalizing m with
  | nil => exact h
  | cons a L ih => exact ih (nodupKeys_abump a h)

theorem nodupKeys_buildCounts (seqs : List (List String)) :
    ((buildCounts seqs).map Prod.fst).Nodup := by
  have gen : ∀ m : List (List String × Nat), (m.map Prod.fst).Nodup →
      ((seqs.foldl (fun m s => (subseqSpans s).foldl abump m) m).map
        Prod.fst).Nodup := by
    induction seqs with
    | nil => intro m hm; exact hm
    | cons s seqs ih =>
      intro m hm
      exact ih _ (nodupKeys_foldl_abump _ hm)
  exact gen [] (by simp)

theorem occCount_eq_zero_of_short {s : List String} (h : s.length ≤ 2)
    (t : List String) : occCount t s = 0 := by
  unfold occCount
  by_cases hT : 3 ≤ t.length
  · rw [if_pos hT]
    have : ((List.range (s.length + 1)).filter fun i =>
        decide (i + t.length ≤ s.length) &&
          (sliceTake s i (i + t.length) == t)) = [] := by
      rw [List.filter_eq_nil_iff]
      intro a _
      have : ¬ a + t.length ≤ s.length := by omega
      simp [this]
    rw [this]
    rfl
  · rw [if_neg hT]

theorem totalOcc_filter_short (seqs : List (List String)) (t : List String) :
    totalOcc (seqs.filter fun s => s.length > 2) t = totalOcc seqs t := by
  induction seqs with
  | nil => rfl
  | cons s seqs ih =>
    by_cases h : s.length > 2
    · have hb : decide (s.length > 2) = true := by simpa using h
      rw [List.filter_cons]
      simp only [hb, if_true]
      simp only [totalOcc, List.map_cons, List.sum_cons] at *
      omega
    · have hshort : s.length ≤ 2 := by omega
      have hb : decide (s.length > 2) = false := by simpa using h
      rw [List.filter_cons]
      simp only [hb, Bool.false_eq_true, if_false]
      simp only [totalOcc, List.map_cons, List.sum_cons] at *
      rw [occCount_eq_zero_of_short hshort]
      simpa using ih

/-! ## Severity-count lemma for the security report -/

theorem severity_value_count (issues : List SecurityIssue)
    (sev : VulnerabilityLevel) :
    (alookup (issues.foldl (fun m i => abump m i.severity.value) [])
      sev.value).getD 0 =
      issues.countP fun i => decide (i.severity = sev) := by
  have hfold : issues.foldl (fun m i => abump m i.severity.value) [] =
      (issues.map fun i => i.severity.value).foldl abump [] :=
    (List.foldl_map _ _ _ _).symm
  rw [hfold, alookup_foldl_abump]
  simp only [alookup, Option.getD_none, Nat.zero_add]
  rw [List.countP_map]
  apply List.countP_congr
  intro i _
  simp only [Function.comp_apply, decide_eq_true_eq]
  cases hs : i.severity <;> cases sev <;> simp [VulnerabilityLevel.value]

/-- With distinct elements, at most one equals any given key. -/
theorem countP_decide_le_one_of_nodup [DecidableEq α] {l : List α}
    (h : l.Nodup) (k : α) : (l.countP fun a => decide (a = k)) ≤ 1 := by
  induction l with
  | nil => simp
  | cons a l ih =>
    rcases h with - | ⟨ha, hl⟩
    rw [List.countP_cons]
    by_cases hak : a = k
    · subst hak
      have hz : (l.countP fun b => decide (b = a)) = 0 := by
        rw [List.countP_eq_zero]
        intro b hb
        simp only [decide_eq_true_eq]
        intro hba
        subst hba
        exact (ha b hb) rfl
      simp [hz]
    · have : (decide (a = k)) = false := by simpa using hak
      simp only [this, Bool.false_eq_true, if_false]
      simpa using ih hl

/-! ## Task-selection lemmas -/

theorem mem_ready_of_selectNextTask {tasks : List (String × Task)} {t : Task}
    (h : selectNextTask tasks = some t) : t ∈ readyTasks tasks := by
  unfold selectNextTask at h
  rcases hl : isort (leByKey taskKey) (readyTasks tasks) with - | ⟨x, xs⟩
  · rw [hl] at h; simp at h
  · rw [hl] at h
    simp only [List.head?] at h
    injection h with h
    subst h
    exact (@mem_isort _ (leByKey taskKey) x (readyTasks tasks)).mp
      (hl ▸ List.mem_cons_self _ _)

/-! ## Project-analyzer lemmas -/

theorem extractFunctionRec_length (l : List Py) :
    (l.flatMap extractFunctionRec).length = (l.filter isFunctionDefB).length := by
  induction l with
  | nil => rfl
  | cons x xs ih =>
    cases x <;> simpa [extractFunctionRec, isFunctionDefB] using ih

theorem asyncStep_foldl (l : List Py) (acc : AsyncUsage) :
    l.foldl asyncStep acc =
      ⟨acc.async_functions + l.countP isAsyncFunctionDefB,
       acc.await_expressions + l.countP isAwaitB⟩ := by
  induction l generalizing acc with
  | nil => simp [List.countP_nil]
  | cons x xs ih =>
    obtain ⟨a1, a2⟩ := acc
    cases x <;>
      simp [asyncStep, List.countP_cons, isAsyncFunctionDefB, isAwaitB, ih] <;>
      omega

/-! ## The claims -/

/-- C2 (amended): the list returned by `analyze_code_security` is sorted by
the key `(severity.value, line_number)` under Python tuple comparison —
i.e. by the severity's literal string label in lexicographic code-point
order, where `"critical" < "high" < "low" < "medium"` — with ties broken by
ascending line number, and it is a permutation of the issues the checks
collected.  (The claimed progression `low < medium < high < critical` is
not the order the code sorts by; see the counterexample.) -/
theorem analyze_code_security_sorted_c2 (parsed : Option Py)
    (lines : List String) :
    SortedB (leByKey issueKey) (analyzeCodeSecurity parsed lines) ∧
    (analyzeCodeSecurity parsed lines).Perm (collectIssues parsed lines) :=
  ⟨sortedB_isort (leByKey_total issueKey) (leByKey_trans issueKey) _,
   perm_isort _⟩

/-- C2 counterexample: on `"import pickle\npickle.loads(data)"` the
analyzer returns the critical issue (line 2) before the high one (line 1),
because `"critical" < "high"` as strings; the claimed
`low < medium < high < critical` ordering is violated. -/
theorem analyze_code_security_sorted_c2_counterexample :
    specOrderedB (analyzeCodeSecurity (some secExTree) secExLines) = false ∧
    (analyzeCodeSecurity (some secExTree) secExLines).map
      (fun i => (i.severity.value, i.line_number)) =
      [("critical", 2), ("high", 1)] := by
  constructor
  · decide
  · decide

/-- C3: the report's risk score is the severity-weighted sum
`low×1 + medium×3 + high×7 + critical×15` of the issue counts, and the
empty issue list produces the zero report with the explicit
"no issues" summary. -/
theorem generate_security_report_c3 (issues : List SecurityIssue)
    (filename : String) :
    (generateSecurityReport issues filename).risk_score =
      (issues.countP fun i => decide (i.severity = .low)) * 1 +
      (issues.countP fun i => decide (i.severity = .medium)) * 3 +
      (issues.countP fun i => decide (i.severity = .high)) * 7 +
      (issues.countP fun i => decide (i.severity = .critical)) * 15 ∧
    generateSecurityReport [] filename =
      { filename := filename, total_issues := 0, risk_score := 0,
        severity_counts := [], summary := "No security issues detected" } := by
  constructor
  · by_cases he : issues.isEmpty
    · have hnil : issues = [] := List.isEmpty_iff.mp he
      subst hnil
      simp [generateSecurityReport]
    · unfold generateSecurityReport
      rw [if_neg he]
      simp only [riskWeights, List.foldl_cons, List.foldl_nil]
      have hlow := severity_value_count issues .low
      have hmed := severity_value_count issues .medium
      have hhigh := severity_value_count issues .high
      have hcrit := severity_value_count issues .critical
      rw [show VulnerabilityLevel.low.value = "low" from rfl] at hlow
      rw [show VulnerabilityLevel.medium.value = "medium" from rfl] at hmed
      rw [show VulnerabilityLevel.high.value = "high" from rfl] at hhigh
      rw [show VulnerabilityLevel.critical.value = "critical" from rfl] at hcrit
      rw [hlow, hmed, hhigh, hcrit]
      ring
  · rfl

/-- C7: `ingest_documentation` on a non-existent path, or on a path without
read permission, returns 0 and leaves the embeddings/index state exactly as
it was, for every possible behavior of the per-file processor and the
indexing step. -/
theorem ingest_documentation_missing_c7 {D St : Type}
    (processFile : String → Option D) (createIndex : St → List D → St)
    (st : St) :
    ingestDocumentation processFile createIndex none st = (0, st) ∧
    ∀ node, ingestDocumentation processFile createIndex
      (some (false, node)) st = (0, st) :=
  ⟨rfl, fun _ => rfl⟩

/-- C8: the checkup health score is `100 - min(5*n, 50)`; it always lies in
`[50, 100]`; the bands are Excellent iff the score is ≥ 90, Good iff it is
in `[70, 90)`, Needs-Attention iff it is below 70; and `n = 6` scores 70 in
the Good band. -/
theorem health_score_c8 :
    (healthScore 6 = 70 ∧ healthBand 6 = .good) ∧
    (∀ n, 50 ≤ healthScore n ∧ healthScore n ≤ 100) ∧
    (∀ n, (healthBand n = .excellent ↔ 90 ≤ healthScore n) ∧
      (healthBand n = .good ↔ 70 ≤ healthScore n ∧ healthScore n < 90) ∧
      (healthBand n = .needsAttention ↔ healthScore n < 70)) := by
  refine ⟨by decide, fun n => by unfold healthScore; omega, fun n => ?_⟩
  unfold healthBand
  by_cases h90 : 90 ≤ healthScore n
  · rw [if_pos h90]
    exact ⟨⟨fun _ => h90, fun _ => rfl⟩,
      ⟨fun h => HealthBand.noConfusion h, fun h => absurd h90 (by omega)⟩,
      ⟨fun h => HealthBand.noConfusion h, fun h => absurd h90 (by omega)⟩⟩
  · rw [if_neg h90]
    by_cases h70 : 70 ≤ healthScore n
    · rw [if_pos h70]
      exact ⟨⟨fun h => HealthBand.noConfusion h, fun h => absurd h h90⟩,
        ⟨fun _ => ⟨h70, by omega⟩, fun _ => rfl⟩,
        ⟨fun h => HealthBand.noConfusion h, fun h => absurd h70 (by omega)⟩⟩
    · rw [if_neg h70]
      exact ⟨⟨fun h => HealthBand.noConfusion h, fun h => absurd h h90⟩,
        ⟨fun h => HealthBand.noConfusion h, fun h => absurd h.1 h70⟩,
        ⟨fun _ => by omega, fun _ => rfl⟩⟩

/-- C9 counterexample: the document identity hashes the file *path*, not
the content: two files with identical raw text but different paths get
different identities, and changing a file's content at a fixed path leaves
the identity unchanged — both halves of the claim fail. -/
theorem document_id_c9_counterexample :
    ((processDocFile "/docs/a.txt" "hello world").content =
        (processDocFile "/docs/b.txt" "hello world").content ∧
      (processDocFile "/docs/a.txt" "hello world").id ≠
        (processDocFile "/docs/b.txt" "hello world").id) ∧
    ((processDocFile "/docs/a.txt" "hello world").content ≠
        (processDocFile "/docs/a.txt" "changed text").content ∧
      (processDocFile "/docs/a.txt" "hello world").id =
        (processDocFile "/docs/a.txt" "changed text").id) := by
  refine ⟨⟨rfl, ?_⟩, ⟨?_, rfl⟩⟩
  · decide
  · decide

/-- C9 (amended): a Document's identity is a short hash derived solely from
its source path: the identity is unchanged under any change of content, and
the two concrete same-text files at different paths receive different
identities. -/
theorem document_id_c9 :
    (∀ path c1 c2, (processDocFile path c1).id = (processDocFile path c2).id) ∧
    (processDocFile "/docs/a.txt" "hello world").id ≠
      (processDocFile "/docs/b.txt" "hello world").id := by
  refine ⟨fun path c1 c2 => rfl, ?_⟩
  decide

/-- C1: in `execute_next_task`, whenever B's prerequisite list contains A's
identity: the selected task always comes from the ready list; B is not
ready (hence never selected) while the map's entry for A's identity has a
status other than `completed`; B is ready once it is itself `pending`, is
in the task map, and every prerequisite resolves to `completed`; and a
prerequisite identity absent from the task map keeps B out of the ready
list. -/
theorem execute_next_task_readiness_c1 (tasks : List (String × Task))
    (A B : Task) (hpre : A.id ∈ B.prerequisites) :
    (∀ t, selectNextTask tasks = some t → t ∈ readyTasks tasks) ∧
    (alookup tasks A.id = some A → A.status ≠ .completed →
      B ∉ readyTasks tasks) ∧
    (B.status = .pending → B ∈ tasks.map Prod.snd →
      (∀ pre ∈ B.prerequisites,
        ((alookup tasks pre).getD defaultStubTask).status = .completed) →
      B ∈ readyTasks tasks) ∧
    (alookup tasks A.id = none → B ∉ readyTasks tasks) := by
  refine ⟨fun t h => mem_ready_of_selectNextTask h, ?_, ?_, ?_⟩
  · intro hA hstat hmem
    have hcond := (List.mem_filter.mp hmem).2
    rw [Bool.and_eq_true] at hcond
    have hall := List.all_eq_true.mp hcond.2 A.id hpre
    rw [hA] at hall
    simp only [Option.getD_some, beq_iff_eq] at hall
    exact hstat hall
  · intro hst hmem hall
    refine List.mem_filter.mpr ⟨hmem, ?_⟩
    rw [Bool.and_eq_true]
    refine ⟨by simp [hst], ?_⟩
    rw [List.all_eq_true]
    intro pre hp
    simp [hall pre hp]
  · intro hA hmem
    have hcond := (List.mem_filter.mp hmem).2
    rw [Bool.and_eq_true] at hcond
    have hall := List.all_eq_true.mp hcond.2 A.id hpre
    rw [hA] at hall
    simp [defaultStubTask] at hall

/-- Witness for C1: with B's prerequisite `"a"`, B is not ready while A is
pending or in progress, becomes ready once A is completed, is never ready
when `"a"` is absent from the map, and the task the selector picks on the
pending map is A, a member of the ready list. -/
theorem execute_next_task_readiness_c1_witness :
    taskB ∉ readyTasks taskMapPending ∧
    taskB ∉ readyTasks taskMapInProgress ∧
    taskB ∈ readyTasks taskMapDone ∧
    taskB ∉ readyTasks taskMapMissing ∧
    taskA ∈ readyTasks taskMapPending :=
  ⟨(execute_next_task_readiness_c1 taskMapPending taskA taskB
      (by decide)).2.1 (by decide) (by decide),
   (execute_next_task_readiness_c1 taskMapInProgress
      { taskA with status := .inProgress } taskB (by decide)).2.1
      (by decide) (by decide),
   (execute_next_task_readiness_c1 taskMapDone
      { taskA with status := .completed } taskB (by decide)).2.2.1
      (by decide) (by decide) (by decide),
   (execute_next_task_readiness_c1 taskMapMissing taskA taskB
      (by decide)).2.2.2 (by decide),
   (execute_next_task_readiness_c1 taskMapPending taskA taskB
      (by decide)).1 taskA (by decide)⟩

/-- C4: whenever the walked tree contains an assignment of a string
constant longer than 3 characters to a simple name whose lowercase form
contains one of the secret keywords, `analyze_code_security` returns at
least one `hardcoded_secret` issue of severity high carrying that
assignment's line number. -/
theorem hardcoded_secret_c4 (tree : Py) (lines : List String)
    (ln ln2 ln3 : Nat) (targets : PyList) (vname sval : String)
    (hnode : Py.assign ln targets (.constantStr ln3 sval) ∈ pyWalk tree)
    (htgt : Py.nameExpr ln2 vname ∈ targets.toList)
    (hkw : (secretKeywords.any fun kw => strContains kw (asciiLower vname)) = true)
    (hlen : sval.length > 3) :
    ∃ issue ∈ analyzeCodeSecurity (some tree) lines,
      issue.issue_type = "hardcoded_secret" ∧ issue.severity = .high ∧
      issue.line_number = ln := by
  refine ⟨{ issue_type := "hardcoded_secret", severity := .high,
            description := ("Hardcoded credential in variable '" ++ vname ++ "'"),
            line_number := ln, code_snippet := snippetAt lines ln,
            recommendation := "Use environment variables or secure credential management",
            cwe_id := "CWE-798",
            owasp_category := "A02:2021 – Cryptographic Failures" },
    ?_, rfl, rfl, rfl⟩
  apply mem_isort.mpr
  unfold collectIssues
  apply List.mem_append_left
  show _ ∈ analyzeDangerousImports tree lines ++
    analyzeHardcodedSecrets tree lines ++ analyzeSqlInjection tree lines ++
    analyzeCommandInjection tree lines ++ analyzePathTraversal tree lines ++
    analyzeDeserialization tree lines ++ analyzeRandomUsage tree lines ++
    analyzeSslIssues tree lines
  simp only [List.append_assoc, List.mem_append]
  refine Or.inr (Or.inl ?_)
  unfold analyzeHardcodedSecrets
  apply List.mem_flatMap.mpr
  refine ⟨Py.assign ln targets (.constantStr ln3 sval), hnode, ?_⟩
  show _ ∈ targets.toList.flatMap _
  apply List.mem_flatMap.mpr
  refine ⟨Py.nameExpr ln2 vname, htgt, ?_⟩
  simp [hkw, hlen]

/-- Witness for C4 at `"password = \"super_secret_password\""`: the
assignment is in the walk, the keyword test fires, and the analyzer output
contains the high-severity `hardcoded_secret` issue on line 1. -/
theorem hardcoded_secret_c4_witness :
    (Py.assign 1 (pl [Py.nameExpr 1 "password"])
        (.constantStr 1 "super_secret_password") ∈ pyWalk secretExTree ∧
      (secretKeywords.any fun kw =>
        strContains kw (asciiLower "password")) = true ∧
      ("super_secret_password".length > 3)) ∧
    (∃ issue ∈ analyzeCodeSecurity (some secretExTree) secretExLines,
      issue.issue_type = "hardcoded_secret" ∧ issue.severity = .high ∧
      issue.line_number = 1) :=
  ⟨⟨by decide, by decide, by decide⟩,
   hardcoded_secret_c4 secretExTree secretExLines 1 1 1
     (pl [Py.nameExpr 1 "password"]) "password" "super_secret_password"
     (by decide) (by decide) (by decide) (by decide)⟩

/-- C5: after two discovery runs, the store holds exactly one entry whose
record carries the canonical pattern string `s`; it sits at the key
`patternId s` derived solely from that string, and its stored record is
the one the second run computed (the last run-2 pattern hashing to that
key), not an accumulation of both runs. -/
theorem discover_patterns_overwrite_c5 (store0 : List (String × PatternRec))
    (p1s p2s : List PatternRec) (s : String) (p2 : PatternRec)
    (hwf : StoreWF store0)
    (hlast : p2s.reverse.find?
      (fun p => patternId p.pattern == patternId s) = some p2)
    (hp2 : p2.pattern = s) :
    alookup (updatePatterns (updatePatterns store0 p1s) p2s)
      (patternId s) = some p2 ∧
    ((updatePatterns (updatePatterns store0 p1s) p2s).countP
      fun kv => decide (kv.2.pattern = s)) = 1 := by
  have hwf2 : StoreWF (updatePatterns (updatePatterns store0 p1s) p2s) :=
    storeWF_updatePatterns _ (storeWF_updatePatterns _ hwf)
  have hlook : alookup (updatePatterns (updatePatterns store0 p1s) p2s)
      (patternId s) = some p2 := by
    rw [alookup_updatePatterns, hlast]
  refine ⟨hlook, ?_⟩
  have hmem : (patternId s, p2) ∈
      updatePatterns (updatePatterns store0 p1s) p2s := mem_of_alookup hlook
  have hupper : ((updatePatterns (updatePatterns store0 p1s) p2s).countP
      fun kv => decide (kv.2.pattern = s)) ≤ 1 := by
    have hsub : ((updatePatterns (updatePatterns store0 p1s) p2s).countP
        fun kv => decide (kv.2.pattern = s)) ≤
        ((updatePatterns (updatePatterns store0 p1s) p2s).countP
          fun kv => decide (kv.1 = patternId s)) := by
      apply List.countP_mono_left
      intro kv hkv hp
      simp only [decide_eq_true_eq] at hp ⊢
      rw [hwf2.2 kv hkv, hp]
    have hkeys : ((updatePatterns (updatePatterns store0 p1s) p2s).countP
        fun kv => decide (kv.1 = patternId s)) ≤ 1 := by
      have := countP_decide_le_one_of_nodup hwf2.1 (patternId s)
      rw [List.countP_map] at this
      exact le_trans (le_of_eq (by apply List.countP_congr; intro kv _; rfl))
        this
    exact le_trans hsub hkeys
  have hlower : 0 < ((updatePatterns (updatePatterns store0 p1s) p2s).countP
      fun kv => decide (kv.2.pattern = s)) := by
    rw [List.countP_pos]
    exact ⟨(patternId s, p2), hmem, by simp [hp2]⟩
  omega

/-- Witness for C5: discovering `"Module -> Assign -> Name"` in two runs
starting from the empty store stores exactly one entry, holding run 2's
record (frequency 5), at the hash key of the canonical string. -/
theorem discover_patterns_overwrite_c5_witness :
    alookup (updatePatterns (updatePatterns [] [patRun1]) [patRun2])
      (patternId "Module -> Assign -> Name") = some patRun2 ∧
    ((updatePatterns (updatePatterns [] [patRun1]) [patRun2]).countP
      fun kv => decide (kv.2.pattern = "Module -> Assign -> Name")) = 1 :=
  discover_patterns_overwrite_c5 [] [patRun1] [patRun2]
    "Module -> Assign -> Name" patRun2 ⟨by simp, by simp⟩ (by decide) rfl

/-- C6 (amended): the `ast_sequence` patterns reported by
`_discover_ast_patterns` are exactly the contiguous node-kind subsequences
(necessarily of length ≥ 3) whose total number of occurrence spans across
all samples exceeds 2, each reported with that total span count as its
frequency.  (The code counts spans, not distinct samples; a subsequence
occurring three times inside a single sample is reported — see the
counterexample.) -/
theorem discover_ast_patterns_c6 (seqs : List (List String))
    (e : PatternRec) :
    e ∈ discoverAstPatterns seqs ↔
      ∃ t, 2 < totalOcc seqs t ∧ e = mkAstEntry t (totalOcc seqs t) := by
  unfold discoverAstPatterns
  constructor
  · intro hm
    rcases List.mem_flatMap.mp hm with ⟨tc, htc, he⟩
    by_cases hc : tc.2 > 2
    · rw [if_pos hc] at he
      have he' : e = mkAstEntry tc.1 tc.2 := by simpa using he
      have hval : alookup (buildCounts (seqs.filter fun s => s.length > 2))
          tc.1 = some tc.2 := by
        have : ((tc.1, tc.2) : List String × Nat) ∈
            buildCounts (seqs.filter fun s => s.length > 2) := htc
        exact alookup_eq_of_mem_nodup this (nodupKeys_buildCounts _)
      have hgd : (alookup (buildCounts (seqs.filter fun s => s.length > 2))
          tc.1).getD 0 = tc.2 := by rw [hval]; rfl
      rw [alookup_buildCounts, totalOcc_filter_short] at hgd
      exact ⟨tc.1, by omega, by rw [he', hgd]⟩
    · rw [if_neg hc] at he
      simp at he
  · rintro ⟨t, ht, rfl⟩
    apply List.mem_flatMap.mpr
    have hgd : (alookup (buildCounts (seqs.filter fun s => s.length > 2))
        t).getD 0 = totalOcc seqs t := by
      rw [alookup_buildCounts, totalOcc_filter_short]
    have hsome : alookup (buildCounts (seqs.filter fun s => s.length > 2))
        t = some (totalOcc seqs t) := by
      cases hl : alookup (buildCounts (seqs.filter fun s => s.length > 2))
          t with
      | none => rw [hl] at hgd; simp at hgd; omega
      | some v => rw [hl] at hgd; simp at hgd; rw [hgd]
    refine ⟨(t, totalOcc seqs t), mem_of_alookup hsome, ?_⟩
    simp [ht]

/-- C6 counterexample: the single sample `A B A B A B A B` alone makes the
subsequence `A -> B -> A` reported (it occurs at three spans inside that
one sample), although it occurs in only one sample — refuting "reported
only when appearing in at least 3 distinct samples". -/
theorem discover_ast_patterns_c6_counterexample :
    (∃ e ∈ discoverAstPatterns seqBatchOne, e.pattern = "A -> B -> A") ∧
    samplesContaining seqBatchOne ["A", "B", "A"] = 1 := by
  constructor
  · decide
  · decide

/-- C10: every function record `_extract_functions` produces has
`is_async = False`; the record list has exactly one entry per
`ast.FunctionDef` node of the walk (so `async def` functions never appear
in it); and async functions are reflected only in the separate
`_detect_async_usage` counters. -/
theorem extract_functions_async_c10 (tree : Py) :
    (∀ f ∈ extractFunctions tree, f.is_async = false) ∧
    (extractFunctions tree).length =
      ((pyWalk tree).filter isFunctionDefB).length ∧
    detectAsyncUsage tree =
      ⟨(pyWalk tree).countP isAsyncFunctionDefB,
       (pyWalk tree).countP isAwaitB⟩ := by
  refine ⟨?_, extractFunctionRec_length _, ?_⟩
  · intro f hf
    rcases List.mem_flatMap.mp hf with ⟨node, -, hfn⟩
    cases node <;> simp_all [extractFunctionRec, isAsyncFunctionDefB]
  · unfold detectAsyncUsage
    rw [asyncStep_foldl]
    simp

/-- Witness for C10 on a module with one plain and one async function: the
record list's length matches the `FunctionDef` count of the walk, the
plain function's record carries `is_async = false`, and the async counters
come out of the walk counts. -/
theorem extract_functions_async_c10_witness :
    (extractFunctions asyncExTree).length =
      ((pyWalk asyncExTree).filter isFunctionDefB).length ∧
    ({ name := "sync_fn", args := 2, is_async := false, decorators := [],
       line_number := 1, complexity := 0 } : FunctionRec).is_async = false ∧
    detectAsyncUsage asyncExTree =
      ⟨(pyWalk asyncExTree).countP isAsyncFunctionDefB,
       (pyWalk asyncExTree).countP isAwaitB⟩ :=
  ⟨(extract_functions_async_c10 asyncExTree).2.1,
   (extract_functions_async_c10 asyncExTree).1
     { name := "sync_fn", args := 2, is_async := false, decorators := [],
       line_number := 1, complexity := 0 } (by decide),
   (extract_functions_async_c10 asyncExTree).2.2⟩

end Pyscription
